import Mathlib

/-!
Verification development for the battleship simulation backend.

Each Python source construct is shallowly embedded as an executable Lean
definition; stateful methods become explicit state-passing functions, Python
sets become `Finset`, Python lists become `List`, and the `random` module is
modeled by explicit oracle streams (`Nat → _`) together with fuel for the
rejection-sampling loops.  Machine randomness (`random.shuffle`,
`random.choice`) is abstracted into parameters that theorems constrain where
needed (e.g. a shuffled list is any permutation of its input).
-/

namespace BattleshipSim

/-- Algorithm-side coordinates: Python tuples of (possibly negative) ints. -/
abbrev Coord := Int × Int

/-- `solution_grid` cell: `none` is water (`None`), `some s` a ship name or
the literal marker string "HIT" (game_engine.py line 71). -/
abbrev Cell := Option String

abbrev Grid := List (List Cell)

/-- The driver's `player_view`: strings UNKNOWN / HIT / MISS. -/
abbrev View := List (List String)

/-- 2-d read `g[r][c]` with a default for out-of-range access (all modeled
call sites index in range, so the default is never exercised). -/
def get2d {α : Type} (d : α) (g : List (List α)) (r c : Nat) : α :=
  (g.getD r []).getD c d

/-- 2-d write `g[r][c] = v` (no-op out of range, matching in-range use). -/
def set2d {α : Type} (g : List (List α)) (r c : Nat) (v : α) : List (List α) :=
  g.set r ((g.getD r []).set c v)

/-- Read the driver view at algorithm (Int) coordinates. -/
def getView2d (v : View) (r c : Int) : String :=
  get2d "UNKNOWN" v r.toNat c.toNat

/-- Pop the first element satisfying `p`, discarding skipped elements and
returning the remainder after it: the `while lst: x = lst.popleft() ...`
idiom over a deque. -/
def popFirst {α : Type} (p : α → Bool) : List α → Option (α × List α)
  | [] => none
  | x :: xs => if p x then some (x, xs) else popFirst p xs

/-- Same idiom for `lst.pop()` which pops from the END of a Python list:
the scan runs backwards from the last element. -/
def popLast {α : Type} (p : α → Bool) (l : List α) : Option (α × List α) :=
  (popFirst p l.reverse).map (fun q => (q.1, q.2.reverse))

/-! ## Game engine: `game_engine.py`, class `BattleshipGame`

Only the fields read or written by the claims are carried; `ship_config`
is not needed after construction for the fixed-placement path. -/

structure BattleshipGame where
  board_size : Nat
  solution_grid : Grid
  total_ship_segments : Nat
  hits_made : Nat
deriving DecidableEq

/-- `BattleshipGame.take_shot` (game_engine.py lines 57-75).  A shot at a
non-empty cell overwrites that solution cell with the marker string "HIT"
and bumps `hits_made` unless the cell already holds the marker. -/
def takeShot (g : BattleshipGame) (r c : Nat) : String × BattleshipGame :=
  match get2d none g.solution_grid r c with
  | some v =>
    if v ≠ "HIT" then
      ("HIT", { g with
        solution_grid := set2d g.solution_grid r c (some "HIT"),
        hits_made := g.hits_made + 1 })
    else
      ("HIT", g)
  | none => ("MISS", g)

/-- `BattleshipGame.is_game_over` (game_engine.py lines 52-55). -/
def isGameOver (g : BattleshipGame) : Bool :=
  g.total_ship_segments ≤ g.hits_made

/-! ## Placement factory: `placement_strategy.py` (fixed mode) -/

/-- Segment recount of `_create_from_fixed_grid` (placement_strategy.py
line 73): number of non-`None` cells of the supplied grid. -/
def countSegments (bs : Nat) (grid : Grid) : Nat :=
  ((List.range bs).map (fun r =>
    ((List.range bs).filter (fun c => get2d none grid r c ≠ none)).length)).sum

/-- `PlacementStrategy._create_from_fixed_grid` (placement_strategy.py lines
62-79).  The randomly placed board built by the `BattleshipGame` constructor
is discarded; `game.solution_grid = grid` installs the CALLER'S grid object
(by reference, in Python), segments are recounted from it, and `hits_made`
is zeroed. -/
def createFromFixedGrid (bs : Nat) (grid : Grid) : BattleshipGame :=
  { board_size := bs
    solution_grid := grid
    total_ship_segments := countSegments bs grid
    hits_made := 0 }

/-- Fold a list of shots through `take_shot`. -/
def playShots (g : BattleshipGame) (shots : List (Nat × Nat)) : BattleshipGame :=
  shots.foldl (fun g p => (takeShot g p.1 p.2).2) g

/-- In `SimulationRunner.run` with strategy `fixed_for_all_rounds`, every
round passes the SAME `fixed_placements` object to the factory.  Because
`_create_from_fixed_grid` aliases it (`game.solution_grid = grid`) and
`take_shot` writes the "HIT" marker through that alias, the grid the second
round receives is the grid as mutated by the first round's shots.  This
definition is that second-round game. -/
def fixedSecondGame (bs : Nat) (grid : Grid) (shots1 : List (Nat × Nat)) :
    BattleshipGame :=
  createFromFixedGrid bs (playShots (createFromFixedGrid bs grid) shots1).solution_grid

/-! ## Simulation driver: `simulation_runner.py`

The targeting algorithm is abstracted as a deterministic step function over
its own state type `σ`; the concrete stubs used in theorems model specific
(buggy or well-behaved) algorithm behaviours.  A fuel parameter bounds the
driver loop (the Python loop is unbounded; every claim is settled at fuel
large enough that the bound is never the reason a run stops). -/

def initView (bs : Nat) : View :=
  List.replicate bs (List.replicate bs "UNKNOWN")

/-- `SimulationRunner._play_single_game` loop body (simulation_runner.py
lines 106-124): ask the algorithm for a shot; if the driver's view already
knows that square, print a warning and `break` (the game is abandoned);
otherwise fire, update view and hit history, and continue until
`game.is_game_over`. -/
def playLoop {σ : Type} (alg : View → List (Nat × Nat) → σ → ((Nat × Nat) × σ)) :
    Nat → BattleshipGame → View → List (Nat × Nat) → List (Nat × Nat) → σ →
      List (Nat × Nat) × BattleshipGame
  | 0, game, _, _, acc, _ => (acc.reverse, game)
  | fuel + 1, game, view, hist, acc, s =>
    if isGameOver game then (acc.reverse, game)
    else
      let rc := (alg view hist s).1
      let s2 := (alg view hist s).2
      if get2d "UNKNOWN" view rc.1 rc.2 ≠ "UNKNOWN" then
        (acc.reverse, game)
      else
        let res := (takeShot game rc.1 rc.2).1
        let game2 := (takeShot game rc.1 rc.2).2
        let view2 := set2d view rc.1 rc.2 res
        let hist2 := if res = "HIT" then hist ++ [rc] else hist
        playLoop alg fuel game2 view2 hist2 (rc :: acc) s2

/-- `_play_single_game` returns `(len(shots_fired_coords), shots_fired_coords)`. -/
def playSingleGame {σ : Type} (alg : View → List (Nat × Nat) → σ → ((Nat × Nat) × σ))
    (fuel bs : Nat) (game : BattleshipGame) (s : σ) : Nat × List (Nat × Nat) :=
  let r := playLoop alg fuel game (initView bs) [] [] s
  (r.1.length, r.1)

def initHeat (bs : Nat) : List (List Nat) :=
  List.replicate bs (List.replicate bs 0)

def bumpHeat (h : List (List Nat)) (rc : Nat × Nat) : List (List Nat) :=
  set2d h rc.1 rc.2 (get2d 0 h rc.1 rc.2 + 1)

/-- `SimulationRunner.run` for the `fixed_for_all_rounds` strategy
(simulation_runner.py lines 40-53): each round builds a game from the SAME
`fixed_placements` object and unconditionally appends
`shot_count` to `shots_per_game` and the fired coordinates to the heat map.
Because `_create_from_fixed_grid` aliases the caller's grid and `take_shot`
mutates it, the grid carried into round `k+1` is the grid as left by round
`k` — modeled here by threading the played game's final `solution_grid`. -/
def runFixedLoop {σ : Type} (alg : View → List (Nat × Nat) → σ → ((Nat × Nat) × σ))
    (resetState : σ) (fuel bs : Nat) :
    Nat → Grid → List (List Nat) → List Nat × List (List Nat) × Grid
  | 0, grid, heat => ([], heat, grid)
  | n + 1, grid, heat =>
    let game := createFromFixedGrid bs grid
    let r := playLoop alg fuel game (initView bs) [] [] resetState
    let rest := runFixedLoop alg resetState fuel bs n r.2.solution_grid
      (r.1.foldl bumpHeat heat)
    (r.1.length :: rest.1, rest.2)

def runFixed {σ : Type} (alg : View → List (Nat × Nat) → σ → ((Nat × Nat) × σ))
    (resetState : σ) (fuel bs rounds : Nat) (grid : Grid) :
    List Nat × List (List Nat) :=
  let r := runFixedLoop alg resetState fuel bs rounds grid (initHeat bs)
  (r.1, r.2.1)

/-! ## Python exceptions surfacing in the embedded algorithms -/

inductive PyErr where
  | nameError
  | valueError
  | indexError
deriving DecidableEq

instance {ε α : Type} [DecidableEq ε] [DecidableEq α] :
    DecidableEq (Except ε α) := fun x y =>
  match x, y with
  | .error a, .error b =>
    if h : a = b then .isTrue (by rw [h])
    else .isFalse (by intro hx; cases hx; exact h rfl)
  | .ok a, .ok b =>
    if h : a = b then .isTrue (by rw [h])
    else .isFalse (by intro hx; cases hx; exact h rfl)
  | .error _, .ok _ => .isFalse (by intro hx; cases hx)
  | .ok _, .error _ => .isFalse (by intro hx; cases hx)

/-! ## Hunt and Target: `hunt_target.py`, class `HuntAndTarget` -/

structure HTState where
  board_size : Nat
  mode : String
  hunt_targets : List Coord
  priority_targets : List Coord
  active_hits : Finset Coord
deriving DecidableEq

/-- `HuntAndTarget._update_state` (hunt_target.py lines 58-77).  When any
hit of `hit_history` is new (not in `active_hits`), the loop body reaches
`for pr, pc in potential_tickets:` (line 68) — `potential_tickets` is an
undefined name, so Python raises `NameError` on the first iteration and the
exception escapes `next_shot` (the partially mutated object is never
observed again because the driver does not catch).  When no hit is new, the
TARGET-with-empty-priority state reverts to HUNT and clears the hits. -/
def htUpdateState (st : HTState) (hist : List Coord) (board : View) :
    Except PyErr HTState :=
  if hist.filter (fun h => decide (h ∉ st.active_hits)) ≠ [] then
    .error .nameError
  else if st.mode == "TARGET" && st.priority_targets.isEmpty then
    .ok { st with mode := "HUNT", active_hits := ∅ }
  else
    .ok st

/-- `HuntAndTarget.next_shot` (hunt_target.py lines 79-97).  TARGET mode
pops `priority_targets` from the END (`list.pop()`, `IndexError` when
empty); HUNT mode pops `hunt_targets` from the END skipping squares no
longer UNKNOWN, and raises `ValueError` when the list runs out — there is
no random fallback. -/
def htNextShot (st : HTState) (board : View) (hist : List Coord) :
    Except PyErr (Coord × HTState) :=
  match htUpdateState st hist board with
  | .error e => .error e
  | .ok st1 =>
    if st1.mode == "TARGET" then
      match st1.priority_targets.getLast? with
      | none => .error .indexError
      | some shot =>
        .ok (shot, { st1 with priority_targets := st1.priority_targets.dropLast })
    else
      match popLast (fun rc => getView2d board rc.1 rc.2 == "UNKNOWN")
          st1.hunt_targets with
      | some q => .ok (q.1, { st1 with hunt_targets := q.2 })
      | none => .error .valueError

/-! ## Random Search: `random_search.py`, class `RandomSearch` -/

structure RSState where
  board_size : Nat
  unfired_shots : List Coord
deriving DecidableEq

/-- `RandomSearch.next_shot` (random_search.py lines 40-58): raises
`ValueError` when its pre-shuffled list is exhausted, else pops from the
END. -/
def rsNextShot (st : RSState) : Except PyErr (Coord × RSState) :=
  match st.unfired_shots.getLast? with
  | none => .error .valueError
  | some s => .ok (s, { st with unfired_shots := st.unfired_shots.dropLast })

/-! ## P2M2 Enhanced: `p2m2.py`, class `P2M2Enhanced` -/

structure P2M2State where
  board_size : Nat
  mode : String
  fired_shots : Finset Coord
  hunt_targets : List Coord
  chosen_parity : Int
  priority_hits : List Coord
  all_hits : Finset Coord
  last_hit_for_midpoint : Option Coord
  last_shot_was_p2m2_hit : Bool
deriving DecidableEq

/-- All board cells of parity `p` in row-major order, i.e. the list
comprehension of p2m2.py lines 62-67 before shuffling. -/
def paritySquares (bs : Nat) (p : Int) : List Coord :=
  (List.range bs).bind (fun r => (List.range bs).filterMap (fun c =>
    if ((r : Int) + (c : Int)) % 2 == p then some ((r : Int), (c : Int)) else none))

/-- `P2M2Enhanced.reset` (p2m2.py lines 47-73).  `random.choice` and the
two `random.shuffle` calls are abstracted: `parity` is the chosen parity
and the two list arguments stand for the shuffled parity classes
(theorems that need it constrain them to be permutations of
`paritySquares bs parity` and `paritySquares bs (1 - parity)`).
`hunt_targets` is primary ++ secondary, exactly line 73. -/
def p2m2Reset (bs : Nat) (parity : Int)
    (primaryShuffled secondaryShuffled : List Coord) : P2M2State :=
  { board_size := bs
    mode := "HUNT"
    fired_shots := ∅
    hunt_targets := primaryShuffled ++ secondaryShuffled
    chosen_parity := parity
    priority_hits := []
    all_hits := ∅
    last_hit_for_midpoint := none
    last_shot_was_p2m2_hit := false }

/-- `_is_valid_and_unfired` (p2m2.py lines 75-76). -/
def validUnfired (bs : Nat) (fired : Finset Coord) (rc : Coord) : Bool :=
  decide (0 ≤ rc.1) && decide (rc.1 < (bs : Int)) &&
  decide (0 ≤ rc.2) && decide (rc.2 < (bs : Int)) && decide (rc ∉ fired)

/-- `_get_p2m2_pattern` (p2m2.py lines 93-95). -/
def p2m2Pattern (o : Coord) : List Coord :=
  [(o.1 + 2, o.2), (o.1 - 2, o.2), (o.1, o.2 + 2), (o.1, o.2 - 2)]

/-- `_get_adjacent_pattern` (p2m2.py lines 97-99). -/
def adjacentPattern (o : Coord) : List Coord :=
  [(o.1 + 1, o.2), (o.1 - 1, o.2), (o.1, o.2 + 1), (o.1, o.2 - 1)]

/-- Loop body of `_update_state` (p2m2.py lines 85-91) for one new hit. -/
def p2m2AbsorbHit (s : P2M2State) (hit : Coord) : P2M2State :=
  let s1 :=
    match s.last_hit_for_midpoint with
    | some lh =>
      if hit ∈ p2m2Pattern lh then { s with last_shot_was_p2m2_hit := true }
      else s
    | none => s
  { s1 with all_hits := insert hit s1.all_hits,
            priority_hits := hit :: s1.priority_hits }

/-- `P2M2Enhanced._update_state` (p2m2.py lines 78-91).  The Python set
difference is iterated in unspecified set order; it is modeled in history
order with duplicates removed, which fixes one admissible order. -/
def p2m2UpdateState (st : P2M2State) (hist : List Coord) : P2M2State :=
  let newly := (hist.filter (fun h => decide (h ∉ st.all_hits))).dedup
  if newly = [] then st
  else
    let st1 := if st.mode == "HUNT" then { st with mode := "TARGET" } else st
    newly.foldl p2m2AbsorbHit st1

/-- The `while True: r, c = random.randint(...)` rejection-sampling loop
shared by generic_algorithm.py lines 166-170, p2m2.py lines 149-153,
smart_target.py lines 112-115 and p2m2st.py lines 176-179.  `rng k` is the
k-th sampled pair (`randint` guarantees it lies on the board); the fuel
bounds the unfolding and `none` means the loop has not terminated within
`fuel` iterations.  On success the next unconsumed stream index is
returned alongside the shot. -/
def rejectLoop (fired : Finset Coord) (rng : Nat → Coord) :
    Nat → Nat → Option (Coord × Nat)
  | _, 0 => none
  | i, fuel + 1 =>
    if rng i ∉ fired then some (rng i, i + 1)
    else rejectLoop fired rng (i + 1) fuel

inductive P2M2Out where
  | shot (c : Coord) (st : P2M2State)
  | exhausted (st : P2M2State)
  | typeErr

/-- Priority 1 of the TARGET loop (p2m2.py lines 123-130): when the
previous shot was a P2M2 hit, the midpoint of the current head hit and
`last_hit_for_midpoint` (Python `//`, floor division) is proposed if valid
and unfired. -/
def p2m2MidShot (st0 : P2M2State) (origin : Coord) : Option Coord :=
  if st0.last_shot_was_p2m2_hit then
    match st0.last_hit_for_midpoint with
    | some prev =>
      let mid : Coord := (Int.fdiv (origin.1 + prev.1) 2,
                         Int.fdiv (origin.2 + prev.2) 2)
      if validUnfired st0.board_size st0.fired_shots mid then some mid
      else none
    | none => none
  else none

/-- TARGET-mode `while self.priority_hits:` loop of p2m2.py lines 118-146,
structurally recursive on the deque.  Priority 1 (midpoint) fires only
when the previous shot was a P2M2 hit — the flag is cleared even when the
midpoint is rejected; Priority 2 records the current head as
`last_hit_for_midpoint` and tries the ±2 pattern; Priority 3 tries the
adjacent pattern; otherwise the head is popped and the loop continues.
`typeErr` marks the (unreachable in real runs) Python `TypeError` arising
when the flag is set while no previous hit is recorded. -/
def p2m2TargetGo (st : P2M2State) : List Coord → P2M2Out
  | [] => .exhausted { st with priority_hits := [] }
  | origin :: rest =>
    let st0 := { st with priority_hits := origin :: rest }
    if st0.last_shot_was_p2m2_hit ∧ st0.last_hit_for_midpoint = none then
      .typeErr
    else
      let st1 :=
        if st0.last_shot_was_p2m2_hit then { st0 with last_shot_was_p2m2_hit := false }
        else st0
      match p2m2MidShot st0 origin with
      | some mid => .shot mid { st1 with fired_shots := insert mid st1.fired_shots }
      | none =>
        let st2 := { st1 with last_hit_for_midpoint := some origin }
        match (p2m2Pattern origin).find? (validUnfired st2.board_size st2.fired_shots) with
        | some s => .shot s { st2 with fired_shots := insert s st2.fired_shots }
        | none =>
          match (adjacentPattern origin).find?
              (validUnfired st2.board_size st2.fired_shots) with
          | some s => .shot s { st2 with fired_shots := insert s st2.fired_shots }
          | none => p2m2TargetGo st2 rest

/-- Final random fallback of p2m2.py lines 148-153. -/
def p2m2Fallback (st : P2M2State) (rng : Nat → Coord) (fuel : Nat) :
    Option (Coord × P2M2State) :=
  match rejectLoop st.fired_shots rng 0 fuel with
  | some q => some (q.1, { st with fired_shots := insert q.1 st.fired_shots })
  | none => none

/-- `P2M2Enhanced.next_shot` (p2m2.py lines 101-153).  The board view
parameter is accepted and ignored, as in the source.  HUNT mode pops
`hunt_targets` from the END (`list.pop()`), discarding already-fired
entries; when the list runs out the control falls through (the list is
left empty) to the final random fallback. -/
def p2m2NextShot (st : P2M2State) (board : View) (hist : List Coord)
    (rng : Nat → Coord) (fuel : Nat) : Option (Coord × P2M2State) :=
  let st1 := p2m2UpdateState st hist
  let st2 :=
    if st1.mode == "TARGET" && st1.priority_hits.isEmpty then
      { st1 with mode := "HUNT" }
    else st1
  if st2.mode == "HUNT" then
    match popLast (fun s => decide (s ∉ st2.fired_shots)) st2.hunt_targets with
    | some q =>
      let stH := { st2 with
        hunt_targets := q.2
        fired_shots := insert q.1 st2.fired_shots
        last_hit_for_midpoint := none
        last_shot_was_p2m2_hit := false }
      some (q.1, stH)
    | none => p2m2Fallback { st2 with hunt_targets := [] } rng fuel
  else if st2.mode == "TARGET" then
    match p2m2TargetGo st2 st2.priority_hits with
    | .shot s stF => some (s, stF)
    | .typeErr => none
    | .exhausted stF => p2m2Fallback stF rng fuel
  else p2m2Fallback st2 rng fuel

/-- Driver-side trace of successive `next_shot` calls: element `k` of
`inputs` is the (view, hit_history) pair passed to call `k`, and `rngs k`
the slice of the random stream that call consumes.  The trace stops if a
call diverges (fuel). -/
def p2m2Run (fuel : Nat) (rngs : Nat → Nat → Coord) :
    P2M2State → Nat → List (View × List Coord) → List Coord
  | _, _, [] => []
  | st, k, (v, h) :: rest =>
    match p2m2NextShot st v h (rngs k) fuel with
    | none => []
    | some (s, st2) => s :: p2m2Run fuel rngs st2 (k + 1) rest

/-- All board cells (image of `randint` pairs), row-major. -/
def allCells (bs : Nat) : List Coord :=
  (List.range bs).bind (fun r => (List.range bs).map (fun c => ((r : Int), (c : Int))))

/-! ## Hit clustering: `_update_target_groups` (smart_target.py lines 45-62,
and identically p2m2st.py lines 70-90 apart from the `ships_found_count`
bookkeeping, which does not touch the groups) -/

/-- `abs(r - gr) + abs(c - gc) == 1` (smart_target.py line 53). -/
def manhattanAdj (a b : Coord) : Bool :=
  ((a.1 - b.1).natAbs + (a.2 - b.2).natAbs) == 1

/-- Inner loop of lines 51-55: some cell of the group is Manhattan-adjacent
to the new hit (the `break` makes it an existential). -/
def groupAdjacent (hit : Coord) (g : Finset Coord) : Bool :=
  decide (∃ cell ∈ g, manhattanAdj hit cell = true)

/-- `adjacent_groups_indices`, collected in ascending enumeration order
with the duplicate guard (lines 50-55). -/
def adjIndices (groups : List (Finset Coord)) (hit : Coord) : List Nat :=
  (List.range groups.length).filter (fun i => groupAdjacent hit (groups.getD i ∅))

/-- Removing the listed indices — the effect of popping
`sorted(adjacent_groups_indices, reverse=True)` (lines 60-61). -/
def removeIdx {α : Type} : Nat → List α → List Nat → List α
  | _, [], _ => []
  | k, x :: xs, idxs =>
    if k ∈ idxs then removeIdx (k + 1) xs idxs
    else x :: removeIdx (k + 1) xs idxs

/-- Body of the `for r, c in new_hits:` loop (lines 49-62) for one hit. -/
def addHitToGroups (groups : List (Finset Coord)) (hit : Coord) :
    List (Finset Coord) :=
  let idxs := adjIndices groups hit
  if idxs = [] then groups ++ [{hit}]
  else removeIdx 0 groups idxs ++
    [idxs.foldl (fun acc i => acc ∪ groups.getD i ∅) {hit}]

/-- `_update_target_groups` (smart_target.py lines 45-62).  The set of new
hits is iterated in history order with duplicates removed (Python iterates
it in unspecified set order). -/
def updateTargetGroups (groups : List (Finset Coord)) (hist : List Coord) :
    List (Finset Coord) :=
  let allCur := groups.foldl (fun a g => a ∪ g) ∅
  let newHits := (hist.filter (fun h => decide (h ∉ allCur))).dedup
  newHits.foldl addHitToGroups groups

/-! ## Drivers for the list-popping strategies -/

/-- Driver-side trace of successive `HuntAndTarget.next_shot` calls: the
trace stops at the first raised exception (the driver does not catch). -/
def htRun : HTState → List (View × List Coord) → List Coord
  | _, [] => []
  | st, (v, h) :: rest =>
    match htNextShot st v h with
    | .error _ => []
    | .ok (s, st2) => s :: htRun st2 rest

/-- Driver-side trace of `n` successive `RandomSearch.next_shot` calls
(the inputs are ignored by the source, so only the count matters). -/
def rsRun : RSState → Nat → List Coord
  | _, 0 => []
  | st, n + 1 =>
    match rsNextShot st with
    | .error _ => []
    | .ok (s, st2) => s :: rsRun st2 n

/-! ## Shared helpers of the SmartTarget-engine strategies
(smart_target.py, p2m2st.py, p2m2_optimized.py) -/

/-- `Counter` key read (`group_size in self.remaining_ships` tests key
presence, `[group_size]` reads the count); decrementing keeps the entry,
as Python never deletes a Counter key. -/
def nlookup (l : List (Nat × Nat)) (k : Nat) : Option Nat :=
  (l.find? (fun p => p.1 == k)).map (fun p => p.2)

/-- `self.remaining_ships[group_size] -= 1`. -/
def ndecrement (l : List (Nat × Nat)) (k : Nat) : List (Nat × Nat) :=
  l.map (fun p => if p.1 == k then (p.1, p.2 - 1) else p)

/-- Python `range(lo, hi)` over machine integers. -/
def intRange (lo hi : Int) : List Int :=
  (List.range (hi - lo).toNat).map (fun i => lo + (i : Int))

/-- Stable insertion step for `sorted(..., key=len)`: an element is placed
before the first strictly-or-equally larger one coming from later in the
original list, preserving Python's stable sort order. -/
def insertByCard (g : Finset Coord) : List (Finset Coord) → List (Finset Coord)
  | [] => [g]
  | g2 :: t => if g.card ≤ g2.card then g :: g2 :: t else g2 :: insertByCard g t

/-- `sorted(self.target_groups, key=len)` (stable, ascending by size). -/
def sortByCard : List (Finset Coord) → List (Finset Coord)
  | [] => []
  | g :: gs => insertByCard g (sortByCard gs)

/-- The `while True: r, c = random.randint(...)` loop of smart_target.py
lines 112-115 and p2m2st.py lines 176-179, whose guard is the full
`_is_valid_and_unfired` check (`randint` only yields board cells, so the
bound test never rejects in real runs).  Fuel-bounded as `rejectLoop`. -/
def vuRejectLoop (bs : Nat) (fired : Finset Coord) (rng : Nat → Coord) :
    Nat → Nat → Option (Coord × Nat)
  | _, 0 => none
  | i, fuel + 1 =>
    if validUnfired bs fired (rng i) then some (rng i, i + 1)
    else vuRejectLoop bs fired rng (i + 1) fuel

/-- `_check_for_sunk_ships` core (smart_target.py lines 64-77, p2m2st.py
lines 92-104, and the tail of `_update_and_check_groups` in
p2m2_optimized.py lines 207-221), parameterized by the class's candidate
function.  The fold carries (ships counter, sunk indices, index) because
the decrements take effect during the enumeration; the collected indices
are then deleted exactly like the reverse-sorted `del`/`pop` loop. -/
def checkSunkCore (bs : Nat) (fired : Finset Coord)
    (cands : Finset Coord → List Coord) (ships : List (Nat × Nat))
    (groups : List (Finset Coord)) : List (Nat × Nat) × List (Finset Coord) :=
  let step := groups.foldl
    (fun (acc : List (Nat × Nat) × List Nat × Nat) g =>
      let boxed := !((cands g).any (validUnfired bs fired))
      if boxed && (nlookup acc.1 g.card).isSome
          && decide (0 < (nlookup acc.1 g.card).getD 0) then
        (ndecrement acc.1 g.card, acc.2.1 ++ [acc.2.2], acc.2.2 + 1)
      else (acc.1, acc.2.1, acc.2.2 + 1))
    (ships, ([] : List Nat), 0)
  (step.1, removeIdx 0 groups step.2.1)

/-- Lexicographic order on coordinates, used to fix one admissible (and
computable) iteration order for Python's unordered set iterations. -/
def coordLe (a b : Coord) : Prop :=
  a.1 < b.1 ∨ (a.1 = b.1 ∧ a.2 ≤ b.2)

instance : DecidableRel coordLe := fun a b => by
  unfold coordLe
  exact Or.decidable

instance : IsTrans Coord coordLe := by
  refine ⟨?_⟩
  intro a b c hab hbc
  unfold coordLe at *
  omega

instance : IsAntisymm Coord coordLe := by
  refine ⟨?_⟩
  intro a b h1 h2
  obtain ⟨x, y⟩ := a
  obtain ⟨z, w⟩ := b
  unfold coordLe at *
  simp only [Prod.mk.injEq]
  simp only at h1 h2
  omega

instance : IsTotal Coord coordLe := by
  refine ⟨?_⟩
  intro a b
  unfold coordLe
  omega

/-- The fixed enumeration of a coordinate set (`list(group)`, set
comprehensions): sorted lexicographically. -/
def fsList (g : Finset Coord) : List Coord :=
  g.sort coordLe

/-! ## Smart Target: `smart_target.py`, class `SmartTarget` -/

structure STState where
  board_size : Nat
  fired_shots : Finset Coord
  hunt_targets : List Coord
  remaining_ships : List (Nat × Nat)
  target_groups : List (Finset Coord)
  last_shot_coord : Option Coord

/-- `_get_target_candidates_for_group` (smart_target.py lines 79-89).
Python iterates sets (`list(group)[0]`, `{r for r, c in group}`, the
`all_adj` comprehension) in unspecified order; the `Finset.toList` order
stands for one admissible order, and the distinct-value counts replace
`len(rows)`/`len(cols)`. -/
def stCandidates (g : Finset Coord) : List Coord :=
  if g.card = 1 then
    match fsList g with
    | o :: _ => adjacentPattern o
    | [] => []
  else
    let rows := ((fsList g).map (fun rc => rc.1)).dedup
    let cols := ((fsList g).map (fun rc => rc.2)).dedup
    let minR := rows.min?.getD 0
    let maxR := rows.max?.getD 0
    let minC := cols.min?.getD 0
    let maxC := cols.max?.getD 0
    if rows.length = 1 then [(minR, minC - 1), (minR, maxC + 1)]
    else if cols.length = 1 then [(minR - 1, minC), (maxR + 1, minC)]
    else (((fsList g).flatMap adjacentPattern).dedup).filter
      (fun s => decide (s ∉ g))

/-- `_get_shot` (smart_target.py lines 91-94). -/
def stGetShot (st : STState) (rc : Coord) : STState :=
  { st with fired_shots := insert rc st.fired_shots
            last_shot_coord := some rc }

/-- `_check_for_sunk_ships` (smart_target.py lines 64-77). -/
def stCheckSunk (st : STState) : STState :=
  let r := checkSunkCore st.board_size st.fired_shots stCandidates
    st.remaining_ships st.target_groups
  { st with remaining_ships := r.1
            target_groups := r.2 }

/-- Steps 1-2 of `SmartTarget.next_shot` (smart_target.py lines 97-99):
the sunk check runs only when the previous shot shows as MISS, then the
hit clusters absorb the history. -/
def stPreprocess (st : STState) (view : View) (hist : List Coord) : STState :=
  let stA := match st.last_shot_coord with
    | some lc =>
      if getView2d view lc.1 lc.2 == "MISS" then stCheckSunk st else st
    | none => st
  { stA with target_groups := updateTargetGroups stA.target_groups hist }

/-- Targeting scan (smart_target.py lines 101-105): the first valid,
unfired candidate over the size-sorted groups. -/
def stTargetScan (st : STState) : Option Coord :=
  ((sortByCard st.target_groups).flatMap stCandidates).find?
    (validUnfired st.board_size st.fired_shots)

/-- Steps 3-5 of `SmartTarget.next_shot` (smart_target.py lines 101-115):
targeting scan, then the hunting popleft loop (skipped entries are
discarded; exhaustion leaves the deque empty), then the random loop. -/
def stShoot (st : STState) (rng : Nat → Coord) (fuel : Nat) :
    Option (Coord × STState) :=
  match stTargetScan st with
  | some s => some (s, stGetShot st s)
  | none =>
    match popFirst (validUnfired st.board_size st.fired_shots)
        st.hunt_targets with
    | some q => some (q.1, stGetShot { st with hunt_targets := q.2 } q.1)
    | none =>
      match vuRejectLoop st.board_size st.fired_shots rng 0 fuel with
      | some q => some (q.1, stGetShot { st with hunt_targets := [] } q.1)
      | none => none

/-- `SmartTarget.next_shot` (smart_target.py lines 96-115). -/
def stNextShot (st : STState) (view : View) (hist : List Coord)
    (rng : Nat → Coord) (fuel : Nat) : Option (Coord × STState) :=
  stShoot (stPreprocess st view hist) rng fuel

/-- Driver-side trace of successive SmartTarget calls. -/
def stRun (fuel : Nat) (rngs : Nat → Nat → Coord) :
    STState → Nat → List (View × List Coord) → List Coord
  | _, _, [] => []
  | st, k, (v, h) :: rest =>
    match stNextShot st v h (rngs k) fuel with
    | none => []
    | some (s, st2) => s :: stRun fuel rngs st2 (k + 1) rest

/-! ## P2M2-ST Directional: `p2m2st.py`, class `P2M2STDirectional` -/

structure PSTState where
  board_size : Nat
  fired_shots : Finset Coord
  hunt_targets : List Coord
  remaining_ships : List (Nat × Nat)
  target_groups : List (Finset Coord)
  last_shot_coord : Option Coord
  ships_found_count : Nat

/-- `_get_target_candidates_for_group` (p2m2st.py lines 106-148): P2M2
plus adjacent for single hits while few ships were found, gap-filling then
end-extension for lines, and the general patterns for complex shapes.
Set iterations are in `Finset.toList` order as in `stCandidates`. -/
def pstCandidates (sfc : Nat) (g : Finset Coord) : List Coord :=
  if g.card = 1 then
    match fsList g with
    | o :: _ =>
      if sfc ≤ 4 then p2m2Pattern o ++ adjacentPattern o
      else adjacentPattern o
    | [] => []
  else
    let rows := ((fsList g).map (fun rc => rc.1)).dedup
    let cols := ((fsList g).map (fun rc => rc.2)).dedup
    let minR := rows.min?.getD 0
    let maxR := rows.max?.getD 0
    let minC := cols.min?.getD 0
    let maxC := cols.max?.getD 0
    if rows.length = 1 then
      (intRange (minC + 1) maxC).filterMap
        (fun c => if (minR, c) ∈ g then none else some (minR, c))
        ++ [(minR, minC - 1), (minR, maxC + 1)]
    else if cols.length = 1 then
      (intRange (minR + 1) maxR).filterMap
        (fun r => if (r, minC) ∈ g then none else some (r, minC))
        ++ [(minR - 1, minC), (maxR + 1, minC)]
    else
      if sfc ≤ 4 then
        (fsList g).flatMap p2m2Pattern ++ (fsList g).flatMap adjacentPattern
      else (fsList g).flatMap adjacentPattern

/-- `_get_shot` (p2m2st.py lines 150-153). -/
def pstGetShot (st : PSTState) (rc : Coord) : PSTState :=
  { st with fired_shots := insert rc st.fired_shots
            last_shot_coord := some rc }

/-- `_check_for_sunk_ships` (p2m2st.py lines 92-104). -/
def pstCheckSunk (st : PSTState) : PSTState :=
  let r := checkSunkCore st.board_size st.fired_shots
    (pstCandidates st.ships_found_count) st.remaining_ships st.target_groups
  { st with remaining_ships := r.1
            target_groups := r.2 }

/-- `_update_target_groups` (p2m2st.py lines 70-90): the SmartTarget
clustering plus the found-ship counter, bumped when the first hit of a new
cluster arrives while no cluster exists. -/
def pstUpdateGroups (st : PSTState) (hist : List Coord) : PSTState :=
  let allCur := st.target_groups.foldl (fun a g => a ∪ g) ∅
  let newHits := (hist.filter (fun h => decide (h ∉ allCur))).dedup
  if newHits = [] then st
  else
    let st1 :=
      if st.target_groups.isEmpty then
        { st with ships_found_count := st.ships_found_count + 1 }
      else st
    { st1 with target_groups := newHits.foldl addHitToGroups st1.target_groups }

/-- Steps 1-2 of `P2M2STDirectional.next_shot` (p2m2st.py lines 156-158). -/
def pstPreprocess (st : PSTState) (view : View) (hist : List Coord) :
    PSTState :=
  let stA := match st.last_shot_coord with
    | some lc =>
      if getView2d view lc.1 lc.2 == "MISS" then pstCheckSunk st else st
    | none => st
  pstUpdateGroups stA hist

/-- Targeting scan (p2m2st.py lines 161-167). -/
def pstTargetScan (st : PSTState) : Option Coord :=
  ((sortByCard st.target_groups).flatMap
      (pstCandidates st.ships_found_count)).find?
    (validUnfired st.board_size st.fired_shots)

/-- Steps 3-5 of `P2M2STDirectional.next_shot` (p2m2st.py lines 160-179). -/
def pstShoot (st : PSTState) (rng : Nat → Coord) (fuel : Nat) :
    Option (Coord × PSTState) :=
  match pstTargetScan st with
  | some s => some (s, pstGetShot st s)
  | none =>
    match popFirst (validUnfired st.board_size st.fired_shots)
        st.hunt_targets with
    | some q => some (q.1, pstGetShot { st with hunt_targets := q.2 } q.1)
    | none =>
      match vuRejectLoop st.board_size st.fired_shots rng 0 fuel with
      | some q => some (q.1, pstGetShot { st with hunt_targets := [] } q.1)
      | none => none

/-- `P2M2STDirectional.next_shot` (p2m2st.py lines 155-179). -/
def pstNextShot (st : PSTState) (view : View) (hist : List Coord)
    (rng : Nat → Coord) (fuel : Nat) : Option (Coord × PSTState) :=
  pstShoot (pstPreprocess st view hist) rng fuel

/-- Driver-side trace of successive P2M2-ST calls. -/
def pstRun (fuel : Nat) (rngs : Nat → Nat → Coord) :
    PSTState → Nat → List (View × List Coord) → List Coord
  | _, _, [] => []
  | st, k, (v, h) :: rest =>
    match pstNextShot st v h (rngs k) fuel with
    | none => []
    | some (s, st2) => s :: pstRun fuel rngs st2 (k + 1) rest

/-! ## P2M2 Optimized: `p2m2_optimized.py`, class `P2M2Optimized` -/

structure OptState where
  board_size : Nat
  fired_shots : Finset Coord
  hunt_targets : List Coord
  remaining_ships : List (Nat × Nat)
  target_groups : List (Finset Coord)
  ships_found_count : Nat

/-- `_has_alternating_hit_pattern` (p2m2_optimized.py lines 106-119): some
pair of hits exactly two apart on a row or column (the `i < j` pair loop
is an existential; a pair of equal cells never satisfies the distance). -/
def hasAlternating (g : Finset Coord) : Bool :=
  if g.card < 2 then false
  else decide (∃ a ∈ g, ∃ b ∈ g,
    ((a.1 - b.1).natAbs = 2 ∧ a.2 = b.2) ∨ ((a.2 - b.2).natAbs = 2 ∧ a.1 = b.1))

/-- `_get_gap_filling_candidates` (p2m2_optimized.py lines 121-155):
`cols_sorted[0]`/`cols_sorted[-1]` are the min and max. -/
def optGapFilling (g : Finset Coord) : List Coord :=
  let rows := ((fsList g).map (fun rc => rc.1)).dedup
  let cols := ((fsList g).map (fun rc => rc.2)).dedup
  if rows.length = 1 then
    let row := rows.head?.getD 0
    let minC := ((fsList g).map (fun rc => rc.2)).min?.getD 0
    let maxC := ((fsList g).map (fun rc => rc.2)).max?.getD 0
    (intRange (minC + 1) maxC).filterMap
      (fun c => if (row, c) ∈ g then none else some (row, c))
      ++ [(row, minC - 1), (row, maxC + 1)]
  else if cols.length = 1 then
    let col := cols.head?.getD 0
    let minR := ((fsList g).map (fun rc => rc.1)).min?.getD 0
    let maxR := ((fsList g).map (fun rc => rc.1)).max?.getD 0
    (intRange (minR + 1) maxR).filterMap
      (fun r => if (r, col) ∈ g then none else some (r, col))
      ++ [(minR - 1, col), (maxR + 1, col)]
  else []

/-- `_get_target_candidates_for_group` (p2m2_optimized.py lines 157-185). -/
def optCandidates (g : Finset Coord) : List Coord :=
  if g.card = 1 then
    match fsList g with
    | o :: _ => p2m2Pattern o ++ adjacentPattern o
    | [] => []
  else if hasAlternating g then optGapFilling g
  else
    let rows := ((fsList g).map (fun rc => rc.1)).dedup
    let cols := ((fsList g).map (fun rc => rc.2)).dedup
    if rows.length = 1 then optGapFilling g
    else if cols.length = 1 then optGapFilling g
    else (fsList g).flatMap adjacentPattern

/-- One directional arm of `_is_space_large_enough_for_any_ship`: the
length of the run of consecutive satisfying offsets 1, 2, ... before the
first failure (`for i in range(1, min_ship_size): ... else break`). -/
def consecFrom (p : Nat → Bool) : Nat → Nat → Nat
  | _, 0 => 0
  | i, steps + 1 => if p i then 1 + consecFrom p (i + 1) steps else 0

/-- `_is_space_large_enough_for_any_ship` (p2m2_optimized.py lines
66-104).  The Counter truthiness test is key-set non-emptiness. -/
def spaceOk (bs : Nat) (fired : Finset Coord) (ships : List (Nat × Nat))
    (rc : Coord) : Bool :=
  if (ships.map (fun p => p.2)).sum = 0 then true
  else
    let minSize := if ships.isEmpty then 2
      else (ships.map (fun p => p.1)).min?.getD 2
    let hSpace := 1
      + consecFrom (fun i => validUnfired bs fired (rc.1, rc.2 - (i : Int)))
          1 (minSize - 1)
      + consecFrom (fun i => validUnfired bs fired (rc.1, rc.2 + (i : Int)))
          1 (minSize - 1)
    if minSize ≤ hSpace then true
    else
      let vSpace := 1
        + consecFrom (fun i => validUnfired bs fired (rc.1 - (i : Int), rc.2))
            1 (minSize - 1)
        + consecFrom (fun i => validUnfired bs fired (rc.1 + (i : Int), rc.2))
            1 (minSize - 1)
      decide (minSize ≤ vSpace)

/-- `_get_shot` (p2m2_optimized.py lines 223-225, no last-shot record). -/
def optGetShot (st : OptState) (rc : Coord) : OptState :=
  { st with fired_shots := insert rc st.fired_shots }

/-- `_update_and_check_groups` (p2m2_optimized.py lines 187-221): early
return when no new hit (skipping the sunk check), else counter bump,
clustering, then the sunk check. -/
def optUpdate (st : OptState) (hist : List Coord) : OptState :=
  let allCur := st.target_groups.foldl (fun a g => a ∪ g) ∅
  let newHits := (hist.filter (fun h => decide (h ∉ allCur))).dedup
  if newHits = [] then st
  else
    let st1 :=
      if st.target_groups.isEmpty then
        { st with ships_found_count := st.ships_found_count + 1 }
      else st
    let st2 :=
      { st1 with target_groups := newHits.foldl addHitToGroups st1.target_groups }
    let r := checkSunkCore st2.board_size st2.fired_shots optCandidates
      st2.remaining_ships st2.target_groups
    { st2 with remaining_ships := r.1
               target_groups := r.2 }

/-- Targeting scan (p2m2_optimized.py lines 231-238). -/
def optTargetScan (st : OptState) : Option Coord :=
  ((sortByCard st.target_groups).flatMap optCandidates).find?
    (validUnfired st.board_size st.fired_shots)

/-- `P2M2Optimized.next_shot` (p2m2_optimized.py lines 227-262).  The
float test `game_progress > 0.6` is modeled as the exact rational
comparison; the hunting loop pops with the combined guard (discarding
rejected entries); the last fallback scans a caller-supplied shuffle
`perm` of all squares, and `none` stands for the final `RuntimeError`
(there is no unbounded loop here, so `none` has no other source). -/
def optNextShot (st : OptState) (view : View) (hist : List Coord)
    (perm : List Coord) : Option (Coord × OptState) :=
  let st1 := optUpdate st hist
  match optTargetScan st1 with
  | some s => some (s, optGetShot st1 s)
  | none =>
    let useCheck :=
      decide (3 * (st1.board_size * st1.board_size) < 5 * st1.fired_shots.card)
    match popFirst
        (fun rc => validUnfired st1.board_size st1.fired_shots rc
          && (!useCheck
            || spaceOk st1.board_size st1.fired_shots st1.remaining_ships rc))
        st1.hunt_targets with
    | some q => some (q.1, optGetShot { st1 with hunt_targets := q.2 } q.1)
    | none =>
      match perm.find? (validUnfired st1.board_size st1.fired_shots) with
      | some s => some (s, optGetShot { st1 with hunt_targets := [] } s)
      | none => none

/-- Driver-side trace of successive P2M2 Optimized calls; `perms k` is the
shuffle the k-th call's fallback would use. -/
def optRun (perms : Nat → List Coord) :
    OptState → Nat → List (View × List Coord) → List Coord
  | _, _, [] => []
  | st, k, (v, h) :: rest =>
    match optNextShot st v h (perms k) with
    | none => []
    | some (s, st2) => s :: optRun perms st2 (k + 1) rest

/-! ## Declarative interpreter: `generic_algorithm.py`, class
`GenericAlgorithm`

The JSON document is embedded as `GConfig`; string-tagged conditions and
actions become closed inductive types with `strOther`/`actOther` for the
fall-through `return False` / no-op branches.  The `random` module is an
oracle record `GRand`: `pairs` is the `randint` pair stream (consumed at
`pidx`), `checker` yields the randomized checkerboard list produced by the
k-th `generate_checkerboard_hunt` (consumed at `cidx`). -/

inductive GCond where
  | onHit
  | onMiss
  | strOther (s : String)
  | queueEmpty (q : String)
  | varLE (v : String) (n : Int)
deriving DecidableEq

inductive GAction where
  | popFromQueue (q : String)
  | generateRandomShot
  | generateDiagonalHunt (q : String)
  | generateCheckerboardHunt (q : String)
  | incrementVariable (v : String)
  | addAdjacentToQueue (q : String)
  | addP2M2ToQueue (q : String)
  | actOther (s : String)
deriving DecidableEq

structure GActionEntry where
  action : GAction
  condition : Option GCond := none
deriving DecidableEq

structure GStateCfg where
  on_entry : List GActionEntry := []
  next_shot : List GActionEntry := []
  transitions : List (GCond × String) := []
deriving DecidableEq

structure GConfig where
  initial_state : String
  queues : List String := []
  vars : List (String × Int) := []
  states : List (String × GStateCfg) := []
deriving DecidableEq

structure GRuntime where
  board_size : Nat
  fired_shots : Finset Coord
  active_hits : Finset Coord
  last_shot_returned : Option Coord
  queues : List (String × List Coord)
  vars : List (String × Int)
  current_state : String
deriving DecidableEq

structure GRand where
  pairs : Nat → Coord
  pidx : Nat
  checker : Nat → List Coord
  cidx : Nat

/-- Association-list lookup (Python dict read). -/
def alookup {β : Type} (l : List (String × β)) (k : String) : Option β :=
  (l.find? (fun p => p.1 == k)).map (fun p => p.2)

/-- Association-list update of an existing key (Python dict write; a write
to an undeclared key raises `KeyError` in Python — the documents handled
here are load-time validated, so this no-op divergence is unreachable). -/
def aupdate {β : Type} (l : List (String × β)) (k : String) (f : β → β) :
    List (String × β) :=
  l.map (fun p => if p.1 == k then (p.1, f p.2) else p)

/-- Association-list overwrite, same caveat. -/
def aset {β : Type} (l : List (String × β)) (k : String) (v : β) :
    List (String × β) :=
  l.map (fun p => if p.1 == k then (p.1, v) else p)

/-- `self.config["states"].get(current_state, {})` with its field defaults. -/
def stateCfg (cfg : GConfig) (name : String) : GStateCfg :=
  (alookup cfg.states name).getD {}

/-- `_evaluate_condition` (generic_algorithm.py lines 147-159).  A missing
queue makes `not self.queues.get(name)` true; a missing variable defaults
to 0; unknown tags yield False. -/
def evalCond (st : GRuntime) (lastRes : Option String) (c : GCond) : Bool :=
  match c with
  | .onHit => lastRes == some "HIT"
  | .onMiss => lastRes == some "MISS"
  | .strOther _ => false
  | .queueEmpty q => ((alookup st.queues q).getD []).isEmpty
  | .varLE v n => decide ((alookup st.vars v).getD 0 ≤ n)

/-- `_generate_diagonal_hunt_paths` (generic_algorithm.py lines 172-182). -/
def diagonalPaths (bs : Nat) : List Coord :=
  (List.range (2 * bs - 1)).flatMap (fun k =>
    let path := (List.range bs).filterMap (fun r =>
      let c : Int := (k : Int) - (r : Int)
      if 0 ≤ c ∧ c < (bs : Int) then some ((r : Int), c) else none)
    if k % 2 == 1 then path.reverse else path)

/-- Neighbour offsets of `_execute_action`, lines 137 and 142 (note the
order differs from p2m2.py). -/
def gAdjOffsets (o : Coord) : List Coord :=
  [(o.1 - 1, o.2), (o.1 + 1, o.2), (o.1, o.2 - 1), (o.1, o.2 + 1)]

def gP2m2Offsets (o : Coord) : List Coord :=
  [(o.1 - 2, o.2), (o.1 + 2, o.2), (o.1, o.2 - 2), (o.1, o.2 + 2)]

/-- `_add_valid_shots_to_queue` (generic_algorithm.py lines 161-164). -/
def addValidShots (st : GRuntime) (shots : List Coord) (q : String) : GRuntime :=
  { st with queues := aupdate st.queues q (fun l =>
      l ++ shots.filter (fun rc =>
        decide (0 ≤ rc.1) && decide (rc.1 < (st.board_size : Int)) &&
        decide (0 ≤ rc.2) && decide (rc.2 < (st.board_size : Int)) &&
        decide (rc ∉ st.fired_shots))) }

/-- `_execute_action` (generic_algorithm.py lines 107-145).  The result is
`none` when the embedded `_get_random_unfired_shot` rejection loop does not
terminate within `fuel` samples; otherwise `some` of the optionally
produced coordinate and the evolved state and oracle. -/
def executeAction (fuel : Nat) (st : GRuntime) (rnd : GRand)
    (lastHit : Option Coord) (a : GAction) :
    Option (Option Coord × GRuntime × GRand) :=
  match a with
  | .popFromQueue q =>
    match popFirst (fun s => decide (s ∉ st.fired_shots))
        ((alookup st.queues q).getD []) with
    | some p => some (some p.1, { st with queues := aset st.queues q p.2 }, rnd)
    | none => some (none, { st with queues := aset st.queues q [] }, rnd)
  | .generateRandomShot =>
    match rejectLoop st.fired_shots rnd.pairs rnd.pidx fuel with
    | some q => some (some q.1, st, { rnd with pidx := q.2 })
    | none => none
  | .generateDiagonalHunt q =>
    some (none, { st with queues := aupdate st.queues q (fun l =>
      l ++ (diagonalPaths st.board_size).filter
        (fun pos => (pos.1 + pos.2) % 2 == 0)) }, rnd)
  | .generateCheckerboardHunt q =>
    some (none, { st with queues := aupdate st.queues q (fun l =>
      l ++ rnd.checker rnd.cidx) }, { rnd with cidx := rnd.cidx + 1 })
  | .incrementVariable v =>
    some (none, { st with vars := aupdate st.vars v (fun n => n + 1) }, rnd)
  | .addAdjacentToQueue q =>
    match lastHit with
    | some o => some (none, addValidShots st (gAdjOffsets o) q, rnd)
    | none => some (none, st, rnd)
  | .addP2M2ToQueue q =>
    match lastHit with
    | some o => some (none, addValidShots st (gP2m2Offsets o) q, rnd)
    | none => some (none, st, rnd)
  | .actOther _ => some (none, st, rnd)

/-- `_execute_on_entry_actions` (generic_algorithm.py lines 86-90): run all
actions of the list, ignoring their coordinate results and conditions. -/
def execOnEntry (fuel : Nat) (lastHit : Option Coord) :
    List GActionEntry → GRuntime → GRand → Option (GRuntime × GRand)
  | [], st, rnd => some (st, rnd)
  | e :: rest, st, rnd =>
    match executeAction fuel st rnd lastHit e.action with
    | none => none
    | some (_, st2, rnd2) => execOnEntry fuel lastHit rest st2 rnd2

/-- `_check_transitions` (generic_algorithm.py lines 75-84): the FIRST
transition whose condition holds fires; `current_state` switches and the
new state's `on_entry` actions run with the most recent hit as context if
the turn resolved to HIT; the `break` makes at most one transition fire. -/
def checkTransitions (cfg : GConfig) (fuel : Nat) (st : GRuntime)
    (rnd : GRand) (lastRes : Option String) (hist : List Coord) :
    Option (GRuntime × GRand) :=
  match (stateCfg cfg st.current_state).transitions.find?
      (fun t => evalCond st lastRes t.1) with
  | none => some (st, rnd)
  | some t =>
    let lastHit := if lastRes == some "HIT" && !hist.isEmpty
      then hist.getLast? else none
    execOnEntry fuel lastHit (stateCfg cfg t.2).on_entry
      { st with current_state := t.2 } rnd

/-- `_get_next_shot_from_actions` (generic_algorithm.py lines 92-105):
skip entries whose condition (evaluated with `last_shot_result = None`)
fails; execute the first passing action; return its coordinate if fresh,
otherwise continue — state changes of executed actions persist. -/
def getShotFromActions (fuel : Nat) (hist : List Coord) :
    List GActionEntry → GRuntime → GRand →
      Option (Option Coord × GRuntime × GRand)
  | [], st, rnd => some (none, st, rnd)
  | e :: rest, st, rnd =>
    if (match e.condition with
        | some c => !(evalCond st none c)
        | none => false) then
      getShotFromActions fuel hist rest st rnd
    else
      match executeAction fuel st rnd hist.getLast? e.action with
      | none => none
      | some (oshot, st2, rnd2) =>
        match oshot with
        | some shot =>
          if shot ∉ st2.fired_shots then some (some shot, st2, rnd2)
          else getShotFromActions fuel hist rest st2 rnd2
        | none => getShotFromActions fuel hist rest st2 rnd2

/-- `_determine_last_shot_result` (generic_algorithm.py lines 67-73). -/
def gDetermineLast (st : GRuntime) (view : View) : Option String :=
  match st.last_shot_returned with
  | some rc => if getView2d view rc.1 rc.2 == "MISS" then some "MISS" else none
  | none => none

/-- Steps 4-6 of `GenericAlgorithm.next_shot` (generic_algorithm.py lines
55-65): ask the current state's action list for a shot, fall back to the
random loop when the outcome is missing or stale, then record the shot. -/
def genericShootPhase (cfg : GConfig) (fuel : Nat) (hist : List Coord)
    (st2 : GRuntime) (rnd2 : GRand) : Option (Coord × GRuntime × GRand) :=
  match getShotFromActions fuel hist
      (stateCfg cfg st2.current_state).next_shot st2 rnd2 with
  | none => none
  | some (oshot, st3, rnd3) =>
    let chosen : Option (Coord × GRuntime × GRand) :=
      match oshot with
      | some s =>
        if s ∈ st3.fired_shots then
          match rejectLoop st3.fired_shots rnd3.pairs rnd3.pidx fuel with
          | some q => some (q.1, st3, { rnd3 with pidx := q.2 })
          | none => none
        else some (s, st3, rnd3)
      | none =>
        match rejectLoop st3.fired_shots rnd3.pairs rnd3.pidx fuel with
        | some q => some (q.1, st3, { rnd3 with pidx := q.2 })
        | none => none
    match chosen with
    | none => none
    | some (s, st4, rnd4) =>
      some (s, { st4 with fired_shots := insert s st4.fired_shots,
                          last_shot_returned := some s }, rnd4)

/-- `GenericAlgorithm.next_shot` (generic_algorithm.py lines 42-65). -/
def genericNextShot (cfg : GConfig) (fuel : Nat) (st : GRuntime) (rnd : GRand)
    (view : View) (hist : List Coord) : Option (Coord × GRuntime × GRand) :=
  let newly := hist.filter (fun h => decide (h ∉ st.active_hits))
  let st1 :=
    if newly ≠ [] then { st with active_hits := st.active_hits ∪ newly.toFinset }
    else st
  let lastRes := if newly ≠ [] then some "HIT" else gDetermineLast st view
  match checkTransitions cfg fuel st1 rnd lastRes hist with
  | none => none
  | some (st2, rnd2) => genericShootPhase cfg fuel hist st2 rnd2

/-- `GenericAlgorithm.reset` (generic_algorithm.py lines 24-40): fresh
empty queues for every declared name, a copy of the document's variables,
`current_state := initial_state`, then the initial state's `on_entry`. -/
def genericReset (cfg : GConfig) (bs : Nat) (fuel : Nat) (rnd : GRand) :
    Option (GRuntime × GRand) :=
  execOnEntry fuel none (stateCfg cfg cfg.initial_state).on_entry
    { board_size := bs
      fired_shots := ∅
      active_hits := ∅
      last_shot_returned := none
      queues := cfg.queues.map (fun n => (n, []))
      vars := cfg.vars
      current_state := cfg.initial_state } rnd

/-- Driver-side trace of successive interpreter calls (oracle threaded). -/
def genericRun (cfg : GConfig) (fuel : Nat) :
    GRuntime → GRand → List (View × List Coord) → List Coord
  | _, _, [] => []
  | st, rnd, (v, h) :: rest =>
    match genericNextShot cfg fuel st rnd v h with
    | none => []
    | some (s, st2, rnd2) => s :: genericRun cfg fuel st2 rnd2 rest

/-- The C7 scenario document: `initial_state` HUNT with an `on_hit`
transition to TARGET whose entry actions increment a counter and enqueue
the new hit's neighbours; TARGET's transition list is empty (the `on_hit`
condition is specific to HUNT). -/
def huntTargetDoc : GConfig :=
  { initial_state := "HUNT"
    queues := ["hunt_queue", "target_queue"]
    vars := [("ships_found_count", 0)]
    states := [
      ("HUNT",
        { on_entry := []
          next_shot := [⟨.popFromQueue "hunt_queue", none⟩]
          transitions := [(.onHit, "TARGET")] }),
      ("TARGET",
        { on_entry := [⟨.incrementVariable "ships_found_count", none⟩,
                       ⟨.addAdjacentToQueue "target_queue", none⟩]
          next_shot := [⟨.popFromQueue "target_queue", none⟩]
          transitions := [] })] }

/-- A concrete 2x2 HUNT runtime for exercising the interpreter. -/
def hgHuntState : GRuntime :=
  { board_size := 2
    fired_shots := ∅
    active_hits := ∅
    last_shot_returned := none
    queues := [("hunt_queue", []), ("target_queue", [])]
    vars := [("ships_found_count", 0)]
    current_state := "HUNT" }

/-- A concrete 2x2 TARGET runtime with one queued candidate. -/
def hgTargetState : GRuntime :=
  { board_size := 2
    fired_shots := ∅
    active_hits := ∅
    last_shot_returned := none
    queues := [("hunt_queue", []), ("target_queue", [((0 : Int), (1 : Int))])]
    vars := [("ships_found_count", 5)]
    current_state := "TARGET" }

/-- A constant randomness oracle. -/
def hgRnd : GRand :=
  { pairs := fun _ => ((0 : Int), (0 : Int))
    pidx := 0
    checker := fun _ => []
    cidx := 0 }

/-! ## Lemmas about list pops -/

theorem popFirst_sat {α : Type} (p : α → Bool) :
    ∀ l q, popFirst p l = some q → p q.1 = true := by
  intro l
  induction l with
  | nil => intro q h; simp [popFirst] at h
  | cons a as ih =>
    intro q h
    by_cases hp : p a
    · simp [popFirst, hp] at h
      rw [← h]
      exact hp
    · simp [popFirst, hp] at h; exact ih q h

theorem popLast_sat {α : Type} (p : α → Bool) (l : List α)
    (q : α × List α) (h : popLast p l = some q) : p q.1 = true := by
  unfold popLast at h
  cases hf : popFirst p l.reverse with
  | none => rw [hf] at h; simp at h
  | some q2 =>
    rw [hf] at h
    simp at h
    have hq := popFirst_sat p l.reverse q2 hf
    rw [← h]
    exact hq

/-! ## Lemmas about 2-d access -/

theorem getD_set_ne {α : Type} (d : α) (l : List α) (n m : Nat) (v : α)
    (hnm : n ≠ m) : (l.set n v).getD m d = l.getD m d := by
  simp [List.getD_eq_getElem?_getD, List.getElem?_set_ne hnm]

theorem get2d_set2d_ne {α : Type} (d : α) (g : List (List α)) (r c r' c' : Nat)
    (v : α) (h : ¬(r' = r ∧ c' = c)) :
    get2d d (set2d g r c v) r' c' = get2d d g r' c' := by
  by_cases hr : r' = r
  · subst hr
    have hc : c ≠ c' := fun hc => h ⟨rfl, hc.symm⟩
    unfold get2d set2d
    by_cases hlen : r' < g.length
    · have hrow : (g.set r' ((g.getD r' []).set c v)).getD r' [] =
          (g.getD r' []).set c v := by
        simp [List.getD_eq_getElem?_getD, List.getElem?_set_self hlen]
      rw [hrow, getD_set_ne d _ c c' v hc]
    · have hle : g.length ≤ r' := by omega
      rw [List.set_eq_of_length_le hle]
  · unfold get2d set2d
    rw [getD_set_ne [] g r r' _ (fun he => hr he.symm)]

theorem get2d_grid_some_lt (g : Grid) (r c : Nat) (v : String)
    (h : get2d none g r c = some v) :
    r < g.length ∧ c < (g.getD r []).length := by
  unfold get2d at h
  constructor
  · by_contra hr
    have hnone : g[r]? = none := List.getElem?_eq_none (by omega)
    rw [List.getD_eq_getElem?_getD g r [], hnone] at h
    simp at h
  · by_contra hc
    have hnone : (g.getD r [])[c]? = none := List.getElem?_eq_none (by omega)
    rw [List.getD_eq_getElem?_getD (g.getD r []) c none, hnone] at h
    simp at h

theorem get2d_set2d_self (g : Grid) (r c : Nat)
    (hr : r < g.length) (hc : c < (g.getD r []).length) (w : Cell) :
    get2d none (set2d g r c w) r c = w := by
  unfold get2d set2d
  have h1 : (g.set r ((g.getD r []).set c w))[r]? =
      some ((g.getD r []).set c w) := List.getElem?_set_self hr
  rw [List.getD_eq_getElem?_getD (g.set r ((g.getD r []).set c w)) r [], h1]
  simp only [Option.getD_some]
  rw [List.getD_eq_getElem?_getD _ c none, List.getElem?_set_self hc]
  simp

/-! ## C1 / C3 claim theorems -/

/-- C1: the `fixed` placement mode does NOT yield independent board
instances.  Failing input: 1×1 solution grid `[["S"]]`, play the single
shot (0,0) in game 1, then create game 2 from the same (aliased, now
mutated) grid.  Game 2's solution cell is the marker "HIT" instead of the
ship name, and replaying the same shot no longer increments `hits_made`,
so game 2 can never reach its win condition — state from game 1 is fully
visible in game 2, contradicting the claimed independence. -/
theorem c1_fixed_mode_second_game_differs :
    let grid : Grid := [[some "S"]]
    let fresh := createFromFixedGrid 1 grid
    let second := fixedSecondGame 1 grid [(0, 0)]
    second.solution_grid ≠ fresh.solution_grid
    ∧ second.solution_grid = [[some "HIT"]]
    ∧ (takeShot fresh 0 0).2.hits_made = 1
    ∧ (takeShot second 0 0).2.hits_made = 0
    ∧ isGameOver (takeShot fresh 0 0).2 = true
    ∧ isGameOver (takeShot second 0 0).2 = false := by
  decide

/-- C3 counterexample: `take_shot` at a ship cell rewrites that solution
cell to the marker "HIT", so the solution grid is not write-once. -/
theorem c3_takeShot_mutates_solution :
    let g := createFromFixedGrid 1 [[some "S"]]
    (takeShot g 0 0).2.solution_grid ≠ g.solution_grid := by
  decide

/-- C3 amended: `take_shot` leaves empty cells and already-marked cells
completely unchanged; at a fresh ship cell it changes exactly the targeted
solution cell (to the marker "HIT") and increments `hits_made`; all other
solution cells are untouched, and a repeated shot at the same cell is a
no-op on the state. -/
theorem c3_amended_takeShot_frame (g : BattleshipGame) (r c : Nat) :
    (∀ r' c', ¬(r' = r ∧ c' = c) →
      get2d none (takeShot g r c).2.solution_grid r' c' =
        get2d none g.solution_grid r' c')
    ∧ (get2d none g.solution_grid r c = none → takeShot g r c = ("MISS", g))
    ∧ (get2d none g.solution_grid r c = some "HIT" →
        takeShot g r c = ("HIT", g))
    ∧ ((takeShot (takeShot g r c).2 r c).2 = (takeShot g r c).2)
    ∧ ((takeShot g r c).2.board_size = g.board_size
        ∧ (takeShot g r c).2.total_ship_segments = g.total_ship_segments) := by
  refine ⟨?_, ?_, ?_, ?_, ?_⟩
  · intro r' c' hne
    unfold takeShot
    cases hcell : get2d none g.solution_grid r c with
    | none => simp
    | some v =>
      by_cases hv : v = "HIT"
      · subst hv; simp
      · simp only [hv, ne_eq, not_false_eq_true, if_pos]
        exact get2d_set2d_ne none g.solution_grid r c r' c' (some "HIT") hne
  · intro h; unfold takeShot; rw [h]
  · intro h; unfold takeShot; rw [h]; simp
  · cases hcell : get2d none g.solution_grid r c with
    | none => simp [takeShot, hcell]
    | some v =>
      by_cases hv : v = "HIT"
      · subst hv; simp [takeShot, hcell]
      · obtain ⟨hr, hc⟩ := get2d_grid_some_lt g.solution_grid r c v hcell
        have hafter : get2d none
            (set2d g.solution_grid r c (some "HIT")) r c = some "HIT" :=
          get2d_set2d_self g.solution_grid r c hr hc (some "HIT")
        simp [takeShot, hcell, hv, hafter]
  · unfold takeShot
    cases hcell : get2d none g.solution_grid r c with
    | none => simp
    | some v =>
      by_cases hv : v = "HIT"
      · subst hv; simp
      · simp [hv]

/-! ## Lemmas about the rejection-sampling fallback -/

theorem rejectLoop_not_fired (fired : Finset Coord) (rng : Nat → Coord) :
    ∀ fuel i q, rejectLoop fired rng i fuel = some q → q.1 ∉ fired := by
  intro fuel
  induction fuel with
  | zero => intro i q h; simp [rejectLoop] at h
  | succ n ih =>
    intro i q h
    unfold rejectLoop at h
    by_cases hf : rng i ∉ fired
    · rw [if_pos hf] at h
      simp at h
      rw [← h]
      exact hf
    · rw [if_neg hf] at h
      exact ih (i + 1) q h

theorem rejectLoop_success (fired : Finset Coord) (rng : Nat → Coord) :
    ∀ fuel i, (∃ j, j < fuel ∧ rng (i + j) ∉ fired) →
      ∃ q, rejectLoop fired rng i fuel = some q := by
  intro fuel
  induction fuel with
  | zero =>
    intro i h
    obtain ⟨j, hj, _⟩ := h
    omega
  | succ n ih =>
    intro i h
    obtain ⟨j, hj, hnf⟩ := h
    unfold rejectLoop
    by_cases hf : rng i ∉ fired
    · exact ⟨(rng i, i + 1), by rw [if_pos hf]⟩
    · rw [if_neg hf]
      apply ih (i + 1)
      have hj0 : j ≠ 0 := by
        intro h0
        rw [h0, Nat.add_zero] at hnf
        exact hf hnf
      refine ⟨j - 1, by omega, ?_⟩
      have hidx : i + 1 + (j - 1) = i + j := by omega
      rw [hidx]
      exact hnf

theorem rejectLoop_all_fired (bs : Nat) (fired : Finset Coord)
    (rng : Nat → Coord) (hall : ∀ c ∈ allCells bs, c ∈ fired)
    (hrng : ∀ k, rng k ∈ allCells bs) :
    ∀ fuel i, rejectLoop fired rng i fuel = none := by
  intro fuel
  induction fuel with
  | zero => intro i; simp [rejectLoop]
  | succ n ih =>
    intro i
    unfold rejectLoop
    have hin : rng i ∈ fired := hall _ (hrng i)
    rw [if_neg (not_not_intro hin)]
    exact ih (i + 1)

theorem popLast_not_fired (fired : Finset Coord) (l : List Coord)
    (q : Coord × List Coord)
    (h : popLast (fun s => decide (s ∉ fired)) l = some q) : q.1 ∉ fired := by
  have := popLast_sat (fun s => decide (s ∉ fired)) l q h
  simpa using this

theorem validUnfired_not_fired (bs : Nat) (fired : Finset Coord) (rc : Coord)
    (h : validUnfired bs fired rc = true) : rc ∉ fired := by
  simp [validUnfired] at h
  exact h.2

/-! ## Lemmas: `fired_shots` evolution through P2M2 `next_shot` -/

theorem p2m2AbsorbHit_fired (s : P2M2State) (hit : Coord) :
    (p2m2AbsorbHit s hit).fired_shots = s.fired_shots := by
  unfold p2m2AbsorbHit
  cases s.last_hit_for_midpoint with
  | none => rfl
  | some lh =>
    by_cases hm : hit ∈ p2m2Pattern lh
    · simp [hm]
    · simp [hm]

theorem p2m2AbsorbFold_fired :
    ∀ (l : List Coord) (s : P2M2State),
      (l.foldl p2m2AbsorbHit s).fired_shots = s.fired_shots := by
  intro l
  induction l with
  | nil => intro s; rfl
  | cons a as ih =>
    intro s
    rw [List.foldl_cons, ih, p2m2AbsorbHit_fired]

theorem p2m2UpdateState_fired (st : P2M2State) (hist : List Coord) :
    (p2m2UpdateState st hist).fired_shots = st.fired_shots := by
  show (if (hist.filter (fun h => decide (h ∉ st.all_hits))).dedup = [] then st
    else ((hist.filter (fun h => decide (h ∉ st.all_hits))).dedup).foldl
      p2m2AbsorbHit
      (if st.mode == "HUNT" then { st with mode := "TARGET" } else st)).fired_shots
    = st.fired_shots
  by_cases hn : (hist.filter (fun h => decide (h ∉ st.all_hits))).dedup = []
  · rw [if_pos hn]
  · rw [if_neg hn, p2m2AbsorbFold_fired]
    by_cases hm : st.mode == "HUNT"
    · simp [hm]
    · simp [hm]

theorem p2m2MidShot_some (st0 : P2M2State) (origin : Coord) (mid : Coord)
    (h : p2m2MidShot st0 origin = some mid) :
    validUnfired st0.board_size st0.fired_shots mid = true := by
  unfold p2m2MidShot at h
  split at h
  · split at h
    · dsimp only at h
      split at h
      · injection h with h1
        rw [← h1]
        assumption
      · exact absurd h (by simp)
    · exact absurd h (by simp)
  · exact absurd h (by simp)

theorem p2m2TargetGo_shot :
    ∀ (prio : List Coord) (st : P2M2State) (s : Coord) (stF : P2M2State),
      p2m2TargetGo st prio = .shot s stF →
        s ∉ st.fired_shots ∧ stF.fired_shots = insert s st.fired_shots := by
  intro prio
  induction prio with
  | nil => intro st s stF h; simp [p2m2TargetGo] at h
  | cons origin rest ih =>
    intro st s stF h
    rw [p2m2TargetGo] at h
    dsimp only at h
    split at h
    · exact absurd h (by simp)
    · split at h
      · -- midpoint fired
        rename_i mid hmid
        injection h with h1 h2
        have hv := p2m2MidShot_some _ _ _ hmid
        refine ⟨?_, ?_⟩
        · rw [← h1]
          have := validUnfired_not_fired _ _ _ hv
          simpa using this
        · rw [← h2, ← h1]
          by_cases hfl : st.last_shot_was_p2m2_hit = true
          · simp [hfl]
          · simp [hfl]
      · -- midpoint not fired: the two pattern find? matches
        split at h
        · rename_i sp hfind
          injection h with h1 h2
          have hv := List.find?_some hfind
          refine ⟨?_, ?_⟩
          · rw [← h1]
            have := validUnfired_not_fired _ _ _ hv
            by_cases hfl : st.last_shot_was_p2m2_hit = true
            · simpa [hfl] using this
            · simpa [hfl] using this
          · rw [← h2, ← h1]
            by_cases hfl : st.last_shot_was_p2m2_hit = true
            · simp [hfl]
            · simp [hfl]
        · split at h
          · rename_i sp hfind
            injection h with h1 h2
            have hv := List.find?_some hfind
            refine ⟨?_, ?_⟩
            · rw [← h1]
              have := validUnfired_not_fired _ _ _ hv
              by_cases hfl : st.last_shot_was_p2m2_hit = true
              · simpa [hfl] using this
              · simpa [hfl] using this
            · rw [← h2, ← h1]
              by_cases hfl : st.last_shot_was_p2m2_hit = true
              · simp [hfl]
              · simp [hfl]
          · -- recursive case: pop the head and continue
            have hres := ih _ s stF h
            refine ⟨?_, ?_⟩
            · have := hres.1
              by_cases hfl : st.last_shot_was_p2m2_hit = true
              · simpa [hfl] using this
              · simpa [hfl] using this
            · have := hres.2
              by_cases hfl : st.last_shot_was_p2m2_hit = true
              · simpa [hfl] using this
              · simpa [hfl] using this

theorem p2m2TargetGo_exhausted :
    ∀ (prio : List Coord) (st : P2M2State) (stF : P2M2State),
      p2m2TargetGo st prio = .exhausted stF →
        stF.fired_shots = st.fired_shots := by
  intro prio
  induction prio with
  | nil =>
    intro st stF h
    rw [p2m2TargetGo] at h
    injection h with h1
    rw [← h1]
  | cons origin rest ih =>
    intro st stF h
    rw [p2m2TargetGo] at h
    dsimp only at h
    split at h
    · exact absurd h (by simp)
    · split at h
      · exact absurd h (by simp)
      · split at h
        · exact absurd h (by simp)
        · split at h
          · exact absurd h (by simp)
          · have hres := ih _ stF h
            by_cases hfl : st.last_shot_was_p2m2_hit = true
            · simpa [hfl] using hres
            · simpa [hfl] using hres

theorem p2m2Fallback_some (st : P2M2State) (rng : Nat → Coord) (fuel : Nat)
    (s : Coord) (st2 : P2M2State)
    (h : p2m2Fallback st rng fuel = some (s, st2)) :
    s ∉ st.fired_shots ∧ st2.fired_shots = insert s st.fired_shots := by
  unfold p2m2Fallback at h
  cases hr : rejectLoop st.fired_shots rng 0 fuel with
  | none => rw [hr] at h; simp at h
  | some q =>
    rw [hr] at h
    simp only [Option.some.injEq, Prod.mk.injEq] at h
    obtain ⟨h1, h2⟩ := h
    have hnf := rejectLoop_not_fired st.fired_shots rng fuel 0 q hr
    rw [h1] at hnf
    refine ⟨hnf, ?_⟩
    rw [← h2]
    simp [h1]

theorem p2m2NextShot_fresh (st : P2M2State) (board : View) (hist : List Coord)
    (rng : Nat → Coord) (fuel : Nat) (s : Coord) (st2 : P2M2State)
    (h : p2m2NextShot st board hist rng fuel = some (s, st2)) :
    s ∉ st.fired_shots ∧ st2.fired_shots = insert s st.fired_shots := by
  have hufired := p2m2UpdateState_fired st hist
  unfold p2m2NextShot at h
  dsimp only at h
  generalize hu : p2m2UpdateState st hist = stU at h hufired
  split at h
  all_goals (
    split at h
    · -- HUNT branch
      split at h
      · -- hunt pop succeeded
        rename_i q hpop
        simp only [Option.some.injEq, Prod.mk.injEq] at h
        obtain ⟨h1, h2⟩ := h
        have hnf := popLast_not_fired _ _ _ hpop
        rw [h1] at hnf
        refine ⟨by simpa [hufired] using hnf, ?_⟩
        rw [← h2]
        simp [h1, hufired]
      · -- hunt exhausted: fall through to the random fallback
        have hres := p2m2Fallback_some _ _ _ _ _ h
        refine ⟨by simpa [hufired] using hres.1, ?_⟩
        have := hres.2
        simpa [hufired] using this
    · split at h
      · -- TARGET branch
        split at h
        · -- target loop fired
          rename_i sT stT hgo
          simp only [Option.some.injEq, Prod.mk.injEq] at h
          obtain ⟨h1, h2⟩ := h
          have hres := p2m2TargetGo_shot _ _ _ _ hgo
          rw [h1] at hres
          rw [← h2]
          refine ⟨by simpa [hufired] using hres.1, ?_⟩
          have := hres.2
          simpa [hufired] using this
        · -- TypeError path returns nothing
          exact absurd h (by simp)
        · -- target loop exhausted: fallback
          rename_i stT hgo
          have hexh := p2m2TargetGo_exhausted _ _ _ hgo
          have hres := p2m2Fallback_some _ _ _ _ _ h
          have hfeq : stT.fired_shots = st.fired_shots := by
            simpa [hufired] using hexh
          refine ⟨by rw [← hfeq]; exact hres.1, ?_⟩
          rw [hres.2, hfeq]
      · -- neither HUNT nor TARGET: direct fallback
        have hres := p2m2Fallback_some _ _ _ _ _ h
        refine ⟨by simpa [hufired] using hres.1, ?_⟩
        have := hres.2
        simpa [hufired] using this)

/-- Along any sequence of calls, every returned coordinate is fresh and
the trace is duplicate-free. -/
theorem p2m2Run_fresh_nodup (fuel : Nat) (rngs : Nat → Nat → Coord) :
    ∀ (inputs : List (View × List Coord)) (st : P2M2State) (k : Nat),
      (∀ x ∈ p2m2Run fuel rngs st k inputs, x ∉ st.fired_shots)
      ∧ (p2m2Run fuel rngs st k inputs).Nodup := by
  intro inputs
  induction inputs with
  | nil => intro st k; simp [p2m2Run]
  | cons vh rest ih =>
    intro st k
    rw [p2m2Run]
    cases hc : p2m2NextShot st vh.1 vh.2 (rngs k) fuel with
    | none => simp
    | some r =>
      obtain ⟨s, st2⟩ := r
      have hf := p2m2NextShot_fresh st vh.1 vh.2 (rngs k) fuel s st2 hc
      have hrest := ih st2 (k + 1)
      constructor
      · intro x hx
        rcases List.mem_cons.mp hx with hx1 | hx2
        · rw [hx1]; exact hf.1
        · have hx2n := hrest.1 x hx2
          rw [hf.2] at hx2n
          intro hxin
          exact hx2n (Finset.mem_insert_of_mem hxin)
      · refine List.nodup_cons.mpr ⟨?_, hrest.2⟩
        intro hsmem
        have := hrest.1 s hsmem
        rw [hf.2] at this
        exact this (Finset.mem_insert_self s st.fired_shots)

theorem p2m2Fallback_none (st : P2M2State) (rng : Nat → Coord) (fuel : Nat)
    (h : rejectLoop st.fired_shots rng 0 fuel = none) :
    p2m2Fallback st rng fuel = none := by
  unfold p2m2Fallback
  rw [h]

/-- With an empty hunt list, an empty priority deque and no new hit,
`next_shot` reaches the final random fallback on a state with the same
fired set. -/
theorem p2m2NextShot_exhausted_eq (st : P2M2State) (board : View)
    (hist : List Coord) (rng : Nat → Coord) (fuel : Nat)
    (hh : st.hunt_targets = []) (hp : st.priority_hits = [])
    (hnew : ∀ x ∈ hist, x ∈ st.all_hits) :
    ∃ stX : P2M2State, stX.fired_shots = st.fired_shots
      ∧ p2m2NextShot st board hist rng fuel = p2m2Fallback stX rng fuel := by
  have hupd : p2m2UpdateState st hist = st := by
    have hfil : hist.filter (fun h => decide (h ∉ st.all_hits)) = [] := by
      rw [List.filter_eq_nil_iff]
      intro a ha
      simpa using hnew a ha
    show (if (hist.filter (fun h => decide (h ∉ st.all_hits))).dedup = []
        then st
        else ((hist.filter (fun h => decide (h ∉ st.all_hits))).dedup).foldl
          p2m2AbsorbHit
          (if st.mode == "HUNT" then { st with mode := "TARGET" } else st))
      = st
    rw [hfil, List.dedup_nil]
    simp
  unfold p2m2NextShot
  rw [hupd]
  dsimp only
  by_cases hm : (st.mode == "TARGET" && st.priority_hits.isEmpty) = true
  · rw [if_pos hm]
    have hmode : (({ st with mode := "HUNT" } : P2M2State).mode == "HUNT")
        = true := by simp
    rw [if_pos hmode]
    have hht : ({ st with mode := "HUNT" } : P2M2State).hunt_targets = [] := hh
    rw [hht]
    have hpl : popLast
        (fun s => decide (s ∉ ({ st with mode := "HUNT" } : P2M2State).fired_shots))
        ([] : List Coord) = none := rfl
    rw [hpl]
    exact ⟨{ st with mode := "HUNT", hunt_targets := [] }, rfl, rfl⟩
  · rw [if_neg hm]
    by_cases hh2 : (st.mode == "HUNT") = true
    · rw [if_pos hh2, hh]
      have hpl : popLast (fun s => decide (s ∉ st.fired_shots))
          ([] : List Coord) = none := rfl
      rw [hpl]
      exact ⟨{ st with hunt_targets := [] }, rfl, rfl⟩
    · rw [if_neg hh2]
      by_cases ht2 : (st.mode == "TARGET") = true
      · exfalso
        apply hm
        rw [ht2, hp]
        rfl
      · rw [if_neg ht2]
        exact ⟨st, rfl, rfl⟩

theorem p2m2Fallback_success (st : P2M2State) (rng : Nat → Coord) (fuel : Nat)
    (h : ∃ j, j < fuel ∧ rng j ∉ st.fired_shots) :
    ∃ c st2, p2m2Fallback st rng fuel = some (c, st2) ∧ c ∉ st.fired_shots := by
  obtain ⟨q, hq⟩ := rejectLoop_success st.fired_shots rng fuel 0
    (by simpa using h)
  refine ⟨q.1, { st with fired_shots := insert q.1 st.fired_shots }, ?_, ?_⟩
  · unfold p2m2Fallback
    rw [hq]
  · exact rejectLoop_not_fired st.fired_shots rng fuel 0 q hq

/-! ## C2: protocol violation handling in the driver -/

/-- C2 counterexample: 2×2 board with a single ship cell at (1,1) and a
(buggy) algorithm that always returns (0,0).  The second turn targets the
already-MISS square, the loop breaks — yet `run` appends the aborted game's
partial shot count 1 to `shots_per_game` exactly as for a completed game
(the result carries no incomplete/failed marker at all), while the game
itself was not over (`hits_made = 0`).  So the claim that such a game "is
recorded as incomplete/failed rather than contributing its partial shot
count" is false on the code. -/
theorem c2_partial_count_is_recorded :
    (runFixed (fun _ _ _ => ((0, 0), ())) () 10 2 1
        [[none, none], [none, some "S"]]).1 = [1]
    ∧ (playLoop (fun _ _ _ => ((0, 0), ())) 10
        (createFromFixedGrid 2 [[none, none], [none, some "S"]])
        (initView 2) [] [] ()).2.hits_made = 0
    ∧ isGameOver (playLoop (fun _ _ _ => ((0, 0), ())) 10
        (createFromFixedGrid 2 [[none, none], [none, some "S"]])
        (initView 2) [] [] ()).2 = false := by
  decide

/-- C2 amended: when the algorithm returns a coordinate the driver's view
already knows, the loop returns normally (warning + `break`, no crash)
with the shots accumulated so far and the game left as it stands; and
`run` appends each round's returned shot count to `shots_per_game`
unconditionally, so the aborted game's partial count enters the batch
statistics indistinguishably from a completed game's count. -/
theorem c2_amended_break_and_count {σ : Type}
    (alg : View → List (Nat × Nat) → σ → ((Nat × Nat) × σ))
    (s : σ) (fuel : Nat) (game : BattleshipGame) (view : View)
    (hist acc : List (Nat × Nat))
    (hnotover : isGameOver game = false)
    (hknown : get2d "UNKNOWN" view (alg view hist s).1.1 (alg view hist s).1.2
      ≠ "UNKNOWN") :
    playLoop alg (fuel + 1) game view hist acc s = (acc.reverse, game)
    ∧ ∀ (bs n : Nat) (grid : Grid) (heat : List (List Nat)),
        (runFixedLoop alg s fuel bs (n + 1) grid heat).1 =
          (playLoop alg fuel (createFromFixedGrid bs grid) (initView bs) [] [] s).1.length
          :: (runFixedLoop alg s fuel bs n
               (playLoop alg fuel (createFromFixedGrid bs grid)
                 (initView bs) [] [] s).2.solution_grid
               ((playLoop alg fuel (createFromFixedGrid bs grid)
                 (initView bs) [] [] s).1.foldl bumpHeat heat)).1 := by
  constructor
  · rw [playLoop]
    simp only [hnotover, Bool.false_eq_true, if_false]
    rw [if_pos hknown]
  · intro bs n grid heat
    rw [runFixedLoop]

/-- C2 amended, witness: the concrete buggy-algorithm scenario instantiates
both conjuncts. -/
theorem c2_amended_break_and_count_witness :
    playLoop (fun (_ : View) (_ : List (Nat × Nat)) (_ : Unit) => ((0, 0), ())) 1
        (createFromFixedGrid 2 [[none, none], [none, some "S"]])
        [["MISS", "UNKNOWN"], ["UNKNOWN", "UNKNOWN"]] [] [(0, 0)] ()
      = ([(0, 0)], createFromFixedGrid 2 [[none, none], [none, some "S"]])
    ∧ (runFixedLoop (fun (_ : View) (_ : List (Nat × Nat)) (_ : Unit) => ((0, 0), ())) () 10 2 1
        [[none, none], [none, some "S"]] (initHeat 2)).1 =
        (playLoop (fun (_ : View) (_ : List (Nat × Nat)) (_ : Unit) => ((0, 0), ())) 10
          (createFromFixedGrid 2 [[none, none], [none, some "S"]])
          (initView 2) [] [] ()).1.length
        :: (runFixedLoop (fun (_ : View) (_ : List (Nat × Nat)) (_ : Unit) => ((0, 0), ())) () 10 2 0
             (playLoop (fun (_ : View) (_ : List (Nat × Nat)) (_ : Unit) => ((0, 0), ())) 10
               (createFromFixedGrid 2 [[none, none], [none, some "S"]])
               (initView 2) [] [] ()).2.solution_grid
             ((playLoop (fun (_ : View) (_ : List (Nat × Nat)) (_ : Unit) => ((0, 0), ())) 10
               (createFromFixedGrid 2 [[none, none], [none, some "S"]])
               (initView 2) [] [] ()).1.foldl bumpHeat (initHeat 2))).1 := by
  have h0 := c2_amended_break_and_count
    (fun (_ : View) (_ : List (Nat × Nat)) (_ : Unit) => ((0, 0), ())) () 0
    (createFromFixedGrid 2 [[none, none], [none, some "S"]])
    [["MISS", "UNKNOWN"], ["UNKNOWN", "UNKNOWN"]] [] [(0, 0)]
    (by decide) (by decide)
  have h10 := c2_amended_break_and_count
    (fun (_ : View) (_ : List (Nat × Nat)) (_ : Unit) => ((0, 0), ())) () 10
    (createFromFixedGrid 2 [[none, none], [none, some "S"]])
    [["MISS", "UNKNOWN"], ["UNKNOWN", "UNKNOWN"]] [] [(0, 0)]
    (by decide) (by decide)
  exact ⟨h0.1, h10.2 2 0 [[none, none], [none, some "S"]] (initHeat 2)⟩

/-! ## C5: the undefined-name bug in Hunt and Target -/

/-- C5: whenever `hit_history` contains a coordinate not yet in
`active_hits`, `_update_state` — and therefore `next_shot`, which calls it
first — fails with the `NameError` raised by the misspelled
`potential_tickets` on line 68 of hunt_target.py, instead of appending the
new hit's valid unfired neighbours to `priority_targets`. -/
theorem c5_new_hit_raises_name_error (st : HTState) (board : View)
    (hist : List Coord) (h : ∃ x ∈ hist, x ∉ st.active_hits) :
    htUpdateState st hist board = .error .nameError
    ∧ htNextShot st board hist = .error .nameError := by
  have hne : hist.filter (fun y => decide (y ∉ st.active_hits)) ≠ [] := by
    obtain ⟨x, hx, hnx⟩ := h
    intro hemp
    have hmem : x ∈ hist.filter (fun y => decide (y ∉ st.active_hits)) :=
      List.mem_filter.mpr ⟨hx, by simpa using hnx⟩
    rw [hemp] at hmem
    simp at hmem
  constructor
  · unfold htUpdateState
    rw [if_pos hne]
  · unfold htNextShot htUpdateState
    rw [if_pos hne]

/-- C5 witness at a concrete new hit. -/
theorem c5_new_hit_raises_name_error_witness :
    htUpdateState ⟨2, "HUNT", [((0 : Int), (0 : Int))], [], ∅⟩
        [((0 : Int), (1 : Int))] [["UNKNOWN", "UNKNOWN"], ["UNKNOWN", "UNKNOWN"]]
      = .error .nameError
    ∧ htNextShot ⟨2, "HUNT", [((0 : Int), (0 : Int))], [], ∅⟩
        [["UNKNOWN", "UNKNOWN"], ["UNKNOWN", "UNKNOWN"]] [((0 : Int), (1 : Int))]
      = .error .nameError := by
  have h := c5_new_hit_raises_name_error
    ⟨2, "HUNT", [((0 : Int), (0 : Int))], [], ∅⟩
    [["UNKNOWN", "UNKNOWN"], ["UNKNOWN", "UNKNOWN"]] [((0 : Int), (1 : Int))]
    ⟨((0 : Int), (1 : Int)), by decide, by decide⟩
  exact h

/-! ## C6 counterexample: exhaustion raises instead of falling back -/

/-- C6 counterexample: Hunt and Target with both its candidate lists
exhausted raises `ValueError` (hunt_target.py line 97) even though an
unfired UNKNOWN cell remains on the board — it never falls back to a
uniform random choice.  (RandomSearch behaves the same way at exhaustion,
random_search.py line 56.) -/
theorem c6_exhaustion_raises :
    htNextShot ⟨1, "HUNT", [], [], ∅⟩ [["UNKNOWN"]] [] = .error .valueError
    ∧ getView2d [["UNKNOWN"]] 0 0 = "UNKNOWN"
    ∧ rsNextShot ⟨1, []⟩ = .error .valueError := by
  decide

/-- C3 amended, witness: the untouched-cell, empty-cell, marker-cell and
idempotence conjuncts instantiated on concrete boards. -/
theorem c3_amended_takeShot_frame_witness :
    get2d none (takeShot (createFromFixedGrid 2 [[some "S", none], [none, none]])
        0 0).2.solution_grid 1 1
      = get2d none (createFromFixedGrid 2
          [[some "S", none], [none, none]]).solution_grid 1 1
    ∧ takeShot (createFromFixedGrid 2 [[some "S", none], [none, none]]) 0 1
      = ("MISS", createFromFixedGrid 2 [[some "S", none], [none, none]])
    ∧ takeShot (createFromFixedGrid 1 [[some "HIT"]]) 0 0
      = ("HIT", createFromFixedGrid 1 [[some "HIT"]])
    ∧ (takeShot (takeShot (createFromFixedGrid 2
        [[some "S", none], [none, none]]) 0 0).2 0 0).2
      = (takeShot (createFromFixedGrid 2 [[some "S", none], [none, none]]) 0 0).2 :=
  ⟨(c3_amended_takeShot_frame _ 0 0).1 1 1 (by decide),
   (c3_amended_takeShot_frame _ 0 1).2.1 (by decide),
   (c3_amended_takeShot_frame _ 0 0).2.2.1 (by decide),
   (c3_amended_takeShot_frame _ 0 0).2.2.2.1⟩

/-! ## Interpreter core lemmas: what each action can and cannot touch -/

theorem executeAction_core (fuel : Nat) (st : GRuntime) (rnd : GRand)
    (lh : Option Coord) (a : GAction) (o : Option Coord) (st2 : GRuntime)
    (rnd2 : GRand) (h : executeAction fuel st rnd lh a = some (o, st2, rnd2)) :
    st2.fired_shots = st.fired_shots ∧ st2.current_state = st.current_state
    ∧ st2.board_size = st.board_size ∧ st2.active_hits = st.active_hits := by
  cases a with
  | popFromQueue q =>
    simp only [executeAction] at h
    split at h
    all_goals (
      simp only [Option.some.injEq, Prod.mk.injEq] at h
      rw [← h.2.1]
      exact ⟨rfl, rfl, rfl, rfl⟩)
  | generateRandomShot =>
    simp only [executeAction] at h
    split at h
    · simp only [Option.some.injEq, Prod.mk.injEq] at h
      rw [← h.2.1]
      exact ⟨rfl, rfl, rfl, rfl⟩
    · exact absurd h (by simp)
  | generateDiagonalHunt q =>
    simp only [executeAction] at h
    simp only [Option.some.injEq, Prod.mk.injEq] at h
    rw [← h.2.1]
    exact ⟨rfl, rfl, rfl, rfl⟩
  | generateCheckerboardHunt q =>
    simp only [executeAction] at h
    simp only [Option.some.injEq, Prod.mk.injEq] at h
    rw [← h.2.1]
    exact ⟨rfl, rfl, rfl, rfl⟩
  | incrementVariable v =>
    simp only [executeAction] at h
    simp only [Option.some.injEq, Prod.mk.injEq] at h
    rw [← h.2.1]
    exact ⟨rfl, rfl, rfl, rfl⟩
  | addAdjacentToQueue q =>
    simp only [executeAction] at h
    split at h
    all_goals (
      simp only [Option.some.injEq, Prod.mk.injEq] at h
      rw [← h.2.1]
      exact ⟨rfl, rfl, rfl, rfl⟩)
  | addP2M2ToQueue q =>
    simp only [executeAction] at h
    split at h
    all_goals (
      simp only [Option.some.injEq, Prod.mk.injEq] at h
      rw [← h.2.1]
      exact ⟨rfl, rfl, rfl, rfl⟩)
  | actOther s =>
    simp only [executeAction] at h
    simp only [Option.some.injEq, Prod.mk.injEq] at h
    rw [← h.2.1]
    exact ⟨rfl, rfl, rfl, rfl⟩

theorem executeAction_increment (fuel : Nat) (st : GRuntime) (rnd : GRand)
    (lh : Option Coord) (v : String) :
    executeAction fuel st rnd lh (.incrementVariable v) =
      some (none, { st with vars := aupdate st.vars v (fun n => n + 1) }, rnd) :=
  rfl

theorem executeAction_pop_vars (fuel : Nat) (st : GRuntime) (rnd : GRand)
    (lh : Option Coord) (q : String) (o : Option Coord) (st2 : GRuntime)
    (rnd2 : GRand)
    (h : executeAction fuel st rnd lh (.popFromQueue q) = some (o, st2, rnd2)) :
    st2.vars = st.vars ∧ st2.current_state = st.current_state := by
  simp only [executeAction] at h
  split at h
  all_goals (
    simp only [Option.some.injEq, Prod.mk.injEq] at h
    rw [← h.2.1]
    exact ⟨rfl, rfl⟩)

theorem execOnEntry_core :
    ∀ (acts : List GActionEntry) (st : GRuntime) (rnd : GRand) (fuel : Nat)
      (lh : Option Coord) (st2 : GRuntime) (rnd2 : GRand),
      execOnEntry fuel lh acts st rnd = some (st2, rnd2) →
        st2.fired_shots = st.fired_shots
        ∧ st2.current_state = st.current_state
        ∧ st2.board_size = st.board_size
        ∧ st2.active_hits = st.active_hits := by
  intro acts
  induction acts with
  | nil =>
    intro st rnd fuel lh st2 rnd2 h
    simp [execOnEntry] at h
    rw [← h.1]
    exact ⟨rfl, rfl, rfl, rfl⟩
  | cons e rest ih =>
    intro st rnd fuel lh st2 rnd2 h
    rw [execOnEntry] at h
    split at h
    · exact absurd h (by simp)
    · rename_i o2 stm rndm hexec
      have hcore := executeAction_core fuel st rnd lh e.action o2 stm rndm hexec
      have hrest := ih stm rndm fuel lh st2 rnd2 h
      exact ⟨hrest.1.trans hcore.1, hrest.2.1.trans hcore.2.1,
             hrest.2.2.1.trans hcore.2.2.1, hrest.2.2.2.trans hcore.2.2.2⟩

theorem checkTransitions_core (cfg : GConfig) (fuel : Nat) (st : GRuntime)
    (rnd : GRand) (lastRes : Option String) (hist : List Coord)
    (st2 : GRuntime) (rnd2 : GRand)
    (h : checkTransitions cfg fuel st rnd lastRes hist = some (st2, rnd2)) :
    st2.fired_shots = st.fired_shots ∧ st2.board_size = st.board_size
    ∧ st2.active_hits = st.active_hits := by
  unfold checkTransitions at h
  split at h
  · simp only [Option.some.injEq, Prod.mk.injEq] at h
    rw [← h.1]
    exact ⟨rfl, rfl, rfl⟩
  · rename_i t hfind
    have hcore := execOnEntry_core _ _ _ _ _ _ _ h
    exact ⟨hcore.1, hcore.2.2.1, hcore.2.2.2⟩

theorem getShotFromActions_spec :
    ∀ (acts : List GActionEntry) (st : GRuntime) (rnd : GRand) (fuel : Nat)
      (hist : List Coord) (o : Option Coord) (st2 : GRuntime) (rnd2 : GRand),
      getShotFromActions fuel hist acts st rnd = some (o, st2, rnd2) →
        (st2.fired_shots = st.fired_shots
          ∧ st2.current_state = st.current_state
          ∧ st2.board_size = st.board_size
          ∧ st2.active_hits = st.active_hits)
        ∧ (∀ s, o = some s → s ∉ st2.fired_shots) := by
  intro acts
  induction acts with
  | nil =>
    intro st rnd fuel hist o st2 rnd2 h
    simp [getShotFromActions] at h
    refine ⟨?_, ?_⟩
    · rw [← h.2.1]
      exact ⟨rfl, rfl, rfl, rfl⟩
    · intro s hs
      rw [← h.1] at hs
      simp at hs
  | cons e rest ih =>
    intro st rnd fuel hist o st2 rnd2 h
    rw [getShotFromActions] at h
    split at h
    · exact ih st rnd fuel hist o st2 rnd2 h
    · split at h
      · exact absurd h (by simp)
      · rename_i oshot2 stm rndm hexec
        have hcore := executeAction_core fuel st rnd hist.getLast? e.action
          oshot2 stm rndm hexec
        split at h
        · rename_i shot hshot
          split at h
          · rename_i hfresh
            simp only [Option.some.injEq, Prod.mk.injEq] at h
            refine ⟨?_, ?_⟩
            · rw [← h.2.1]
              exact hcore
            · intro s hs
              rw [← h.2.1]
              rw [← h.1] at hs
              simp at hs
              rw [← hs]
              exact hfresh
          · have hrest := ih stm rndm fuel hist o st2 rnd2 h
            exact ⟨⟨hrest.1.1.trans hcore.1, hrest.1.2.1.trans hcore.2.1,
                    hrest.1.2.2.1.trans hcore.2.2.1,
                    hrest.1.2.2.2.trans hcore.2.2.2⟩, hrest.2⟩
        · have hrest := ih stm rndm fuel hist o st2 rnd2 h
          exact ⟨⟨hrest.1.1.trans hcore.1, hrest.1.2.1.trans hcore.2.1,
                  hrest.1.2.2.1.trans hcore.2.2.1,
                  hrest.1.2.2.2.trans hcore.2.2.2⟩, hrest.2⟩

theorem genericShootPhase_chosen_key (st3 : GRuntime) (rnd3 : GRand)
    (fuel : Nat) (oshot : Option Coord) (s4 : Coord) (st4 : GRuntime)
    (rnd4 : GRand)
    (hchosen : (match oshot with
      | some s =>
        if s ∈ st3.fired_shots then
          match rejectLoop st3.fired_shots rnd3.pairs rnd3.pidx fuel with
          | some q => some (q.1, st3, { rnd3 with pidx := q.2 })
          | none => none
        else some (s, st3, rnd3)
      | none =>
        match rejectLoop st3.fired_shots rnd3.pairs rnd3.pidx fuel with
        | some q => some (q.1, st3, { rnd3 with pidx := q.2 })
        | none => none) = some (s4, st4, rnd4)) :
    s4 ∉ st3.fired_shots ∧ st4 = st3 := by
  split at hchosen
  · rename_i s0 hsh
    split at hchosen
    · split at hchosen
      · rename_i hin q hrl
        simp only [Option.some.injEq, Prod.mk.injEq] at hchosen
        obtain ⟨hq1, hq2, _⟩ := hchosen
        refine ⟨?_, hq2.symm⟩
        rw [← hq1]
        exact rejectLoop_not_fired _ _ _ _ _ hrl
      · exact absurd hchosen (by simp)
    · rename_i hnotin
      simp only [Option.some.injEq, Prod.mk.injEq] at hchosen
      obtain ⟨hq1, hq2, _⟩ := hchosen
      refine ⟨?_, hq2.symm⟩
      rw [← hq1]
      exact hnotin
  · split at hchosen
    · rename_i q hrl
      simp only [Option.some.injEq, Prod.mk.injEq] at hchosen
      obtain ⟨hq1, hq2, _⟩ := hchosen
      refine ⟨?_, hq2.symm⟩
      rw [← hq1]
      exact rejectLoop_not_fired _ _ _ _ _ hrl
    · exact absurd hchosen (by simp)

theorem genericShootPhase_fresh (cfg : GConfig) (fuel : Nat)
    (hist : List Coord) (stT : GRuntime) (rndT : GRand) (s : Coord)
    (st2 : GRuntime) (rnd2 : GRand)
    (h : genericShootPhase cfg fuel hist stT rndT = some (s, st2, rnd2)) :
    s ∉ stT.fired_shots ∧ st2.fired_shots = insert s stT.fired_shots := by
  unfold genericShootPhase at h
  dsimp only at h
  split at h
  · exact absurd h (by simp)
  · rename_i oshot st3 rnd3 hgs
    have hgsc := getShotFromActions_spec _ _ _ _ _ _ _ _ hgs
    have h3f : st3.fired_shots = stT.fired_shots := hgsc.1.1
    split at h
    · exact absurd h (by simp)
    · rename_i s4 st4 rnd4 hchosen
      simp only [Option.some.injEq, Prod.mk.injEq] at h
      obtain ⟨hs, hst2, _⟩ := h
      have hkey := genericShootPhase_chosen_key st3 rnd3 fuel oshot s4 st4
        rnd4 hchosen
      constructor
      · rw [← hs, ← h3f]
        exact hkey.1
      · rw [← hst2, hkey.2, ← hs]
        rw [h3f]

theorem genericNextShot_fresh (cfg : GConfig) (fuel : Nat) (st : GRuntime)
    (rnd : GRand) (view : View) (hist : List Coord) (s : Coord)
    (st2 : GRuntime) (rnd2 : GRand)
    (h : genericNextShot cfg fuel st rnd view hist = some (s, st2, rnd2)) :
    s ∉ st.fired_shots ∧ st2.fired_shots = insert s st.fired_shots := by
  have hst1 : (if hist.filter (fun x => decide (x ∉ st.active_hits)) ≠ [] then
      { st with active_hits := st.active_hits ∪
          (hist.filter (fun x => decide (x ∉ st.active_hits))).toFinset }
      else st).fired_shots = st.fired_shots := by
    split
    · rfl
    · rfl
  unfold genericNextShot at h
  dsimp only at h
  split at h
  · exact absurd h (by simp)
  · rename_i stT rndT hct
    have hctc := checkTransitions_core _ _ _ _ _ _ _ _ hct
    have hTf : stT.fired_shots = st.fired_shots := hctc.1.trans hst1
    have hsp := genericShootPhase_fresh cfg fuel hist stT rndT s st2 rnd2 h
    constructor
    · rw [← hTf]
      exact hsp.1
    · rw [hsp.2, hTf]

/-- Along any sequence of interpreter calls, every returned coordinate is
fresh and the trace is duplicate-free. -/
theorem genericRun_fresh_nodup (cfg : GConfig) (fuel : Nat) :
    ∀ (inputs : List (View × List Coord)) (st : GRuntime) (rnd : GRand),
      (∀ x ∈ genericRun cfg fuel st rnd inputs, x ∉ st.fired_shots)
      ∧ (genericRun cfg fuel st rnd inputs).Nodup := by
  intro inputs
  induction inputs with
  | nil => intro st rnd; simp [genericRun]
  | cons vh rest ih =>
    intro st rnd
    rw [genericRun]
    cases hc : genericNextShot cfg fuel st rnd vh.1 vh.2 with
    | none => simp
    | some r =>
      obtain ⟨s, st2, rnd2⟩ := r
      have hf := genericNextShot_fresh cfg fuel st rnd vh.1 vh.2 s st2 rnd2 hc
      have hrest := ih st2 rnd2
      constructor
      · intro x hx
        rcases List.mem_cons.mp hx with hx1 | hx2
        · rw [hx1]; exact hf.1
        · have hx2n := hrest.1 x hx2
          rw [hf.2] at hx2n
          intro hxin
          exact hx2n (Finset.mem_insert_of_mem hxin)
      · refine List.nodup_cons.mpr ⟨?_, hrest.2⟩
        intro hsmem
        have := hrest.1 s hsmem
        rw [hf.2] at this
        exact this (Finset.mem_insert_self s st.fired_shots)

/-! ## C4: the fired-coordinate sequence has no duplicates -/

theorem popFirst_sublist {α : Type} (p : α → Bool) :
    ∀ (l : List α) (q : α × List α), popFirst p l = some q →
      (q.1 :: q.2).Sublist l := by
  intro l
  induction l with
  | nil =>
    intro q h
    simp [popFirst] at h
  | cons x xs ih =>
    intro q h
    unfold popFirst at h
    by_cases hp : p x = true
    · rw [if_pos hp] at h
      simp only [Option.some.injEq] at h
      rw [← h]
    · rw [if_neg hp] at h
      exact List.Sublist.cons x (ih q h)

theorem popLast_sublist {α : Type} (p : α → Bool) (l : List α)
    (q : α × List α) (h : popLast p l = some q) :
    (q.2 ++ [q.1]).Sublist l := by
  unfold popLast at h
  cases hf : popFirst p l.reverse with
  | none =>
    rw [hf] at h
    simp at h
  | some q2 =>
    rw [hf] at h
    simp only [Option.map_some', Option.some.injEq] at h
    have hsub := popFirst_sublist p l.reverse q2 hf
    have h2 := hsub.reverse
    rw [List.reverse_cons, List.reverse_reverse] at h2
    rw [← h]
    exact h2

theorem getLast?_decomp {α : Type} :
    ∀ (l : List α) (s : α), l.getLast? = some s → l.dropLast ++ [s] = l := by
  intro l
  induction l with
  | nil =>
    intro s h
    simp at h
  | cons x xs ih =>
    intro s h
    cases xs with
    | nil =>
      simp only [List.getLast?_singleton, Option.some.injEq] at h
      rw [← h]
      rfl
    | cons y ys =>
      rw [List.getLast?_cons_cons] at h
      show (x :: (y :: ys).dropLast) ++ [s] = x :: y :: ys
      rw [List.cons_append, ih s h]

/-- `HuntAndTarget.next_shot` step property: starting with no priority
targets (the post-`reset` state, preserved forever since the C5 NameError
keeps `priority_targets` from ever being filled), a successful call pops
its result from `hunt_targets` and keeps `priority_targets` empty. -/
theorem htNextShot_step (st : HTState) (v : View) (hist : List Coord)
    (s : Coord) (st2 : HTState) (hp : st.priority_targets = [])
    (h : htNextShot st v hist = .ok (s, st2)) :
    (st2.hunt_targets ++ [s]).Sublist st.hunt_targets
    ∧ st2.priority_targets = [] := by
  unfold htNextShot at h
  split at h
  · exact Except.noConfusion h
  · rename_i st1 heq
    have hfacts : st1.priority_targets = []
        ∧ st1.hunt_targets = st.hunt_targets := by
      unfold htUpdateState at heq
      split at heq
      · exact Except.noConfusion heq
      · split at heq
        · simp only [Except.ok.injEq] at heq
          rw [← heq]
          exact ⟨hp, rfl⟩
        · simp only [Except.ok.injEq] at heq
          rw [← heq]
          exact ⟨hp, rfl⟩
    split at h
    · rw [hfacts.1] at h
      simp at h
    · split at h
      · rename_i q hpop
        simp only [Except.ok.injEq, Prod.mk.injEq] at h
        obtain ⟨h1, h2⟩ := h
        have hsub := popLast_sublist _ _ _ hpop
        rw [hfacts.2] at hsub
        constructor
        · rw [← h2, ← h1]
          exact hsub
        · rw [← h2]
          exact hfacts.1
      · exact Except.noConfusion h

/-- Along any trace from a state with empty `priority_targets` and a
duplicate-free `hunt_targets` (what `reset` establishes: the two shuffled
parity classes partition the board), the returned coordinates all come
from `hunt_targets` and never repeat. -/
theorem htRun_fresh_nodup :
    ∀ (inputs : List (View × List Coord)) (st : HTState),
      st.priority_targets = [] → st.hunt_targets.Nodup →
      (∀ x ∈ htRun st inputs, x ∈ st.hunt_targets)
      ∧ (htRun st inputs).Nodup := by
  intro inputs
  induction inputs with
  | nil =>
    intro st hp hn
    simp [htRun]
  | cons vh rest ih =>
    intro st hp hn
    rw [htRun]
    cases hc : htNextShot st vh.1 vh.2 with
    | error e => simp
    | ok r =>
      obtain ⟨s, st2⟩ := r
      dsimp only
      have hstep := htNextShot_step st vh.1 vh.2 s st2 hp hc
      have hsub := hstep.1
      have happ : (st2.hunt_targets ++ [s]).Nodup := hn.sublist hsub
      have hn2 : st2.hunt_targets.Nodup := (List.nodup_append.mp happ).1
      have hs : s ∉ st2.hunt_targets := by
        have hdisj := (List.nodup_append.mp happ).2.2
        intro hmem
        exact (hdisj hmem) (List.mem_singleton_self s)
      have hrest := ih st2 hstep.2 hn2
      constructor
      · intro x hx
        rcases List.mem_cons.mp hx with hx1 | hx2
        · rw [hx1]
          exact hsub.subset
            (List.mem_append_right _ (List.mem_singleton_self s))
        · exact hsub.subset (List.mem_append_left _ (hrest.1 x hx2))
      · refine List.nodup_cons.mpr ⟨?_, hrest.2⟩
        intro hsmem
        exact hs (hrest.1 s hsmem)

theorem rsNextShot_step (st : RSState) (s : Coord) (st2 : RSState)
    (h : rsNextShot st = .ok (s, st2)) :
    st2.unfired_shots ++ [s] = st.unfired_shots := by
  unfold rsNextShot at h
  split at h
  · exact Except.noConfusion h
  · rename_i a hg
    simp only [Except.ok.injEq, Prod.mk.injEq] at h
    obtain ⟨h1, h2⟩ := h
    rw [← h2]
    rw [h1] at hg
    exact getLast?_decomp st.unfired_shots s hg

/-- Along any trace from a state with a duplicate-free `unfired_shots`
(what `reset` establishes: a shuffle of all board cells), Random Search
never repeats a coordinate. -/
theorem rsRun_fresh_nodup :
    ∀ (n : Nat) (st : RSState), st.unfired_shots.Nodup →
      (∀ x ∈ rsRun st n, x ∈ st.unfired_shots) ∧ (rsRun st n).Nodup := by
  intro n
  induction n with
  | zero =>
    intro st hn
    simp [rsRun]
  | succ m ih =>
    intro st hn
    rw [rsRun]
    cases hc : rsNextShot st with
    | error e => simp
    | ok r =>
      obtain ⟨s, st2⟩ := r
      dsimp only
      have hdec := rsNextShot_step st s st2 hc
      have happ : (st2.unfired_shots ++ [s]).Nodup := by
        rw [hdec]
        exact hn
      have hn2 : st2.unfired_shots.Nodup := (List.nodup_append.mp happ).1
      have hs : s ∉ st2.unfired_shots := by
        have hdisj := (List.nodup_append.mp happ).2.2
        intro hmem
        exact (hdisj hmem) (List.mem_singleton_self s)
      have hrest := ih st2 hn2
      constructor
      · intro x hx
        rcases List.mem_cons.mp hx with hx1 | hx2
        · rw [hx1, ← hdec]
          exact List.mem_append_right _ (List.mem_singleton_self s)
        · rw [← hdec]
          exact List.mem_append_left _ (hrest.1 x hx2)
      · refine List.nodup_cons.mpr ⟨?_, hrest.2⟩
        intro hsmem
        exact hs (hrest.1 s hsmem)

theorem vuRejectLoop_not_fired (bs : Nat) (fired : Finset Coord)
    (rng : Nat → Coord) :
    ∀ fuel i q, vuRejectLoop bs fired rng i fuel = some q → q.1 ∉ fired := by
  intro fuel
  induction fuel with
  | zero =>
    intro i q h
    simp [vuRejectLoop] at h
  | succ n ih =>
    intro i q h
    unfold vuRejectLoop at h
    by_cases hf : validUnfired bs fired (rng i) = true
    · rw [if_pos hf] at h
      simp at h
      rw [← h]
      exact validUnfired_not_fired _ _ _ hf
    · rw [if_neg hf] at h
      exact ih (i + 1) q h

theorem stPreprocess_fired (st : STState) (view : View) (hist : List Coord) :
    (stPreprocess st view hist).fired_shots = st.fired_shots := by
  unfold stPreprocess
  dsimp only
  cases st.last_shot_coord with
  | none => rfl
  | some lc =>
    dsimp only
    split <;> rfl

theorem stShoot_fresh (st : STState) (rng : Nat → Coord) (fuel : Nat)
    (s : Coord) (st2 : STState)
    (h : stShoot st rng fuel = some (s, st2)) :
    s ∉ st.fired_shots ∧ st2.fired_shots = insert s st.fired_shots := by
  unfold stShoot at h
  split at h
  · rename_i sc hscan
    simp only [Option.some.injEq, Prod.mk.injEq] at h
    obtain ⟨h1, h2⟩ := h
    unfold stTargetScan at hscan
    have hv := List.find?_some hscan
    refine ⟨?_, ?_⟩
    · rw [← h1]
      exact validUnfired_not_fired _ _ _ hv
    · rw [← h2, ← h1]
      rfl
  · split at h
    · rename_i q hpop
      simp only [Option.some.injEq, Prod.mk.injEq] at h
      obtain ⟨h1, h2⟩ := h
      have hv := popFirst_sat _ _ _ hpop
      refine ⟨?_, ?_⟩
      · rw [← h1]
        exact validUnfired_not_fired _ _ _ hv
      · rw [← h2, ← h1]
        rfl
    · split at h
      · rename_i q hrl
        simp only [Option.some.injEq, Prod.mk.injEq] at h
        obtain ⟨h1, h2⟩ := h
        have hv := vuRejectLoop_not_fired st.board_size st.fired_shots rng
          fuel 0 q hrl
        refine ⟨?_, ?_⟩
        · rw [← h1]
          exact hv
        · rw [← h2, ← h1]
          rfl
      · exact absurd h (by simp)

theorem stNextShot_fresh (st : STState) (view : View) (hist : List Coord)
    (rng : Nat → Coord) (fuel : Nat) (s : Coord) (st2 : STState)
    (h : stNextShot st view hist rng fuel = some (s, st2)) :
    s ∉ st.fired_shots ∧ st2.fired_shots = insert s st.fired_shots := by
  unfold stNextShot at h
  have hf := stShoot_fresh _ _ _ _ _ h
  rwa [stPreprocess_fired] at hf

theorem stRun_fresh_nodup (fuel : Nat) (rngs : Nat → Nat → Coord) :
    ∀ (inputs : List (View × List Coord)) (st : STState) (k : Nat),
      (∀ x ∈ stRun fuel rngs st k inputs, x ∉ st.fired_shots)
      ∧ (stRun fuel rngs st k inputs).Nodup := by
  intro inputs
  induction inputs with
  | nil =>
    intro st k
    simp [stRun]
  | cons vh rest ih =>
    intro st k
    rw [stRun]
    cases hc : stNextShot st vh.1 vh.2 (rngs k) fuel with
    | none => simp
    | some r =>
      obtain ⟨s, st2⟩ := r
      have hf := stNextShot_fresh st vh.1 vh.2 (rngs k) fuel s st2 hc
      have hrest := ih st2 (k + 1)
      constructor
      · intro x hx
        rcases List.mem_cons.mp hx with hx1 | hx2
        · rw [hx1]
          exact hf.1
        · have hx2n := hrest.1 x hx2
          rw [hf.2] at hx2n
          intro hxin
          exact hx2n (Finset.mem_insert_of_mem hxin)
      · refine List.nodup_cons.mpr ⟨?_, hrest.2⟩
        intro hsmem
        have := hrest.1 s hsmem
        rw [hf.2] at this
        exact this (Finset.mem_insert_self s st.fired_shots)

theorem pstUpdateGroups_fired (st : PSTState) (hist : List Coord) :
    (pstUpdateGroups st hist).fired_shots = st.fired_shots := by
  unfold pstUpdateGroups
  dsimp only
  split
  · rfl
  · split <;> rfl

theorem pstPreprocess_fired (st : PSTState) (view : View)
    (hist : List Coord) :
    (pstPreprocess st view hist).fired_shots = st.fired_shots := by
  unfold pstPreprocess
  dsimp only
  cases st.last_shot_coord with
  | none => rw [pstUpdateGroups_fired]
  | some lc =>
    dsimp only
    split
    · rw [pstUpdateGroups_fired]
      rfl
    · rw [pstUpdateGroups_fired]

theorem pstShoot_fresh (st : PSTState) (rng : Nat → Coord) (fuel : Nat)
    (s : Coord) (st2 : PSTState)
    (h : pstShoot st rng fuel = some (s, st2)) :
    s ∉ st.fired_shots ∧ st2.fired_shots = insert s st.fired_shots := by
  unfold pstShoot at h
  split at h
  · rename_i sc hscan
    simp only [Option.some.injEq, Prod.mk.injEq] at h
    obtain ⟨h1, h2⟩ := h
    unfold pstTargetScan at hscan
    have hv := List.find?_some hscan
    refine ⟨?_, ?_⟩
    · rw [← h1]
      exact validUnfired_not_fired _ _ _ hv
    · rw [← h2, ← h1]
      rfl
  · split at h
    · rename_i q hpop
      simp only [Option.some.injEq, Prod.mk.injEq] at h
      obtain ⟨h1, h2⟩ := h
      have hv := popFirst_sat _ _ _ hpop
      refine ⟨?_, ?_⟩
      · rw [← h1]
        exact validUnfired_not_fired _ _ _ hv
      · rw [← h2, ← h1]
        rfl
    · split at h
      · rename_i q hrl
        simp only [Option.some.injEq, Prod.mk.injEq] at h
        obtain ⟨h1, h2⟩ := h
        have hv := vuRejectLoop_not_fired st.board_size st.fired_shots rng
          fuel 0 q hrl
        refine ⟨?_, ?_⟩
        · rw [← h1]
          exact hv
        · rw [← h2, ← h1]
          rfl
      · exact absurd h (by simp)

theorem pstNextShot_fresh (st : PSTState) (view : View) (hist : List Coord)
    (rng : Nat → Coord) (fuel : Nat) (s : Coord) (st2 : PSTState)
    (h : pstNextShot st view hist rng fuel = some (s, st2)) :
    s ∉ st.fired_shots ∧ st2.fired_shots = insert s st.fired_shots := by
  unfold pstNextShot at h
  have hf := pstShoot_fresh _ _ _ _ _ h
  rwa [pstPreprocess_fired] at hf

theorem pstRun_fresh_nodup (fuel : Nat) (rngs : Nat → Nat → Coord) :
    ∀ (inputs : List (View × List Coord)) (st : PSTState) (k : Nat),
      (∀ x ∈ pstRun fuel rngs st k inputs, x ∉ st.fired_shots)
      ∧ (pstRun fuel rngs st k inputs).Nodup := by
  intro inputs
  induction inputs with
  | nil =>
    intro st k
    simp [pstRun]
  | cons vh rest ih =>
    intro st k
    rw [pstRun]
    cases hc : pstNextShot st vh.1 vh.2 (rngs k) fuel with
    | none => simp
    | some r =>
      obtain ⟨s, st2⟩ := r
      have hf := pstNextShot_fresh st vh.1 vh.2 (rngs k) fuel s st2 hc
      have hrest := ih st2 (k + 1)
      constructor
      · intro x hx
        rcases List.mem_cons.mp hx with hx1 | hx2
        · rw [hx1]
          exact hf.1
        · have hx2n := hrest.1 x hx2
          rw [hf.2] at hx2n
          intro hxin
          exact hx2n (Finset.mem_insert_of_mem hxin)
      · refine List.nodup_cons.mpr ⟨?_, hrest.2⟩
        intro hsmem
        have := hrest.1 s hsmem
        rw [hf.2] at this
        exact this (Finset.mem_insert_self s st.fired_shots)

theorem optUpdate_fired (st : OptState) (hist : List Coord) :
    (optUpdate st hist).fired_shots = st.fired_shots := by
  unfold optUpdate
  dsimp only
  split
  · rfl
  · split <;> rfl

theorem optNextShot_fresh (st : OptState) (view : View) (hist : List Coord)
    (perm : List Coord) (s : Coord) (st2 : OptState)
    (h : optNextShot st view hist perm = some (s, st2)) :
    s ∉ st.fired_shots ∧ st2.fired_shots = insert s st.fired_shots := by
  unfold optNextShot at h
  dsimp only at h
  generalize hu : optUpdate st hist = st1 at h
  have hfe : st1.fired_shots = st.fired_shots := by
    rw [← hu]
    exact optUpdate_fired st hist
  rw [← hfe]
  split at h
  · rename_i sc hscan
    simp only [Option.some.injEq, Prod.mk.injEq] at h
    obtain ⟨h1, h2⟩ := h
    unfold optTargetScan at hscan
    have hv := List.find?_some hscan
    refine ⟨?_, ?_⟩
    · rw [← h1]
      exact validUnfired_not_fired _ _ _ hv
    · rw [← h2, ← h1]
      rfl
  · split at h
    · rename_i q hpop
      simp only [Option.some.injEq, Prod.mk.injEq] at h
      obtain ⟨h1, h2⟩ := h
      have hv := popFirst_sat _ _ _ hpop
      have hv2 : validUnfired st1.board_size st1.fired_shots q.1 = true := by
        simp only [Bool.and_eq_true] at hv
        exact hv.1
      refine ⟨?_, ?_⟩
      · rw [← h1]
        exact validUnfired_not_fired _ _ _ hv2
      · rw [← h2, ← h1]
        rfl
    · split at h
      · rename_i sc hfind
        simp only [Option.some.injEq, Prod.mk.injEq] at h
        obtain ⟨h1, h2⟩ := h
        have hv := List.find?_some hfind
        refine ⟨?_, ?_⟩
        · rw [← h1]
          exact validUnfired_not_fired _ _ _ hv
        · rw [← h2, ← h1]
          rfl
      · exact absurd h (by simp)

theorem optRun_fresh_nodup (perms : Nat → List Coord) :
    ∀ (inputs : List (View × List Coord)) (st : OptState) (k : Nat),
      (∀ x ∈ optRun perms st k inputs, x ∉ st.fired_shots)
      ∧ (optRun perms st k inputs).Nodup := by
  intro inputs
  induction inputs with
  | nil =>
    intro st k
    simp [optRun]
  | cons vh rest ih =>
    intro st k
    rw [optRun]
    cases hc : optNextShot st vh.1 vh.2 (perms k) with
    | none => simp
    | some r =>
      obtain ⟨s, st2⟩ := r
      have hf := optNextShot_fresh st vh.1 vh.2 (perms k) s st2 hc
      have hrest := ih st2 (k + 1)
      constructor
      · intro x hx
        rcases List.mem_cons.mp hx with hx1 | hx2
        · rw [hx1]
          exact hf.1
        · have hx2n := hrest.1 x hx2
          rw [hf.2] at hx2n
          intro hxin
          exact hx2n (Finset.mem_insert_of_mem hxin)
      · refine List.nodup_cons.mpr ⟨?_, hrest.2⟩
        intro hsmem
        have := hrest.1 s hsmem
        rw [hf.2] at this
        exact this (Finset.mem_insert_self s st.fired_shots)

/-- C4: for every targeting algorithm of the repository the sequence of
coordinates returned by successive `next_shot` calls contains no
duplicates.  The declarative interpreter, P2M2 Enhanced, Smart Target,
P2M2-ST Directional and P2M2 Optimized guard every return by an unfired
check against the instance's `fired_shots` set and then record the shot,
so their traces are duplicate-free from ANY state.  Hunt-and-Target and
Random Search own no fired set: they pop each candidate at most once from
a list, so their traces are duplicate-free from every state whose list is
duplicate-free — which `reset` establishes, building the list as a
shuffle of the whole board (for Hunt-and-Target additionally
`priority_targets = []` holds after `reset`, and stays empty forever
because the C5 NameError aborts every call that would fill it). -/
theorem c4_no_duplicate_shots (fuel : Nat) (rngs : Nat → Nat → Coord)
    (inputs : List (View × List Coord)) (st : P2M2State) (k : Nat)
    (cfg : GConfig) (gst : GRuntime) (grnd : GRand) (sst : STState)
    (pst : PSTState) (ost : OptState) (perms : Nat → List Coord)
    (hst : HTState) (rst : RSState) (n : Nat) :
    (p2m2Run fuel rngs st k inputs).Nodup
    ∧ (genericRun cfg fuel gst grnd inputs).Nodup
    ∧ (stRun fuel rngs sst k inputs).Nodup
    ∧ (pstRun fuel rngs pst k inputs).Nodup
    ∧ (optRun perms ost k inputs).Nodup
    ∧ (hst.priority_targets = [] → hst.hunt_targets.Nodup →
        (htRun hst inputs).Nodup)
    ∧ (rst.unfired_shots.Nodup → (rsRun rst n).Nodup) :=
  ⟨(p2m2Run_fresh_nodup fuel rngs inputs st k).2,
   (genericRun_fresh_nodup cfg fuel inputs gst grnd).2,
   (stRun_fresh_nodup fuel rngs inputs sst k).2,
   (pstRun_fresh_nodup fuel rngs inputs pst k).2,
   (optRun_fresh_nodup perms inputs ost k).2,
   fun hp hn => (htRun_fresh_nodup inputs hst hp hn).2,
   fun hn => (rsRun_fresh_nodup n rst hn).2⟩

theorem c4_no_duplicate_shots_witness :
    ((⟨1, "HUNT", [((0 : Int), (0 : Int))], [], ∅⟩ : HTState).priority_targets
        = []
      ∧ (⟨1, "HUNT", [((0 : Int), (0 : Int))], [], ∅⟩
          : HTState).hunt_targets.Nodup
      ∧ (⟨1, [((0 : Int), (0 : Int))]⟩ : RSState).unfired_shots.Nodup)
    ∧ (htRun ⟨1, "HUNT", [((0 : Int), (0 : Int))], [], ∅⟩
        [(initView 1, [])]).Nodup
    ∧ (rsRun ⟨1, [((0 : Int), (0 : Int))]⟩ 1).Nodup := by
  refine ⟨⟨rfl, by decide, by decide⟩, ?_, ?_⟩
  · exact (c4_no_duplicate_shots 1 (fun _ _ => ((0 : Int), (0 : Int)))
      [(initView 1, [])] (p2m2Reset 1 0 [] []) 0 huntTargetDoc hgHuntState
      hgRnd ⟨1, ∅, [((0 : Int), (0 : Int))], [(2, 1)], [], none⟩
      ⟨1, ∅, [((0 : Int), (0 : Int))], [(2, 1)], [], none, 0⟩
      ⟨1, ∅, [((0 : Int), (0 : Int))], [(2, 1)], [], 0⟩ (fun _ => [])
      ⟨1, "HUNT", [((0 : Int), (0 : Int))], [], ∅⟩
      ⟨1, [((0 : Int), (0 : Int))]⟩ 1).2.2.2.2.2.1 rfl (by decide)
  · exact (c4_no_duplicate_shots 1 (fun _ _ => ((0 : Int), (0 : Int)))
      [(initView 1, [])] (p2m2Reset 1 0 [] []) 0 huntTargetDoc hgHuntState
      hgRnd ⟨1, ∅, [((0 : Int), (0 : Int))], [(2, 1)], [], none⟩
      ⟨1, ∅, [((0 : Int), (0 : Int))], [(2, 1)], [], none, 0⟩
      ⟨1, ∅, [((0 : Int), (0 : Int))], [(2, 1)], [], 0⟩ (fun _ => [])
      ⟨1, "HUNT", [((0 : Int), (0 : Int))], [], ∅⟩
      ⟨1, [((0 : Int), (0 : Int))]⟩ 1).2.2.2.2.2.2 (by decide)

/-! ## C9: parity of pure-hunt shots in P2M2 Enhanced -/

/-- C9: the code violates the parity property.  With board size 2, chosen
parity 0 and identity shuffles (a legal outcome of `random.shuffle`), the
very first `next_shot` in pure hunt mode (mode HUNT, no active hit) pops
`hunt_targets` from the END of primary ++ secondary (`list.pop()`), so it
returns (1,0) — a square of parity 1, not the chosen parity 0 — even
though the comment at p2m2.py line 72 says "Hunt the chosen parity first".
-/
theorem c9_p2m2_first_hunt_shot_off_parity :
    (p2m2Reset 2 0 (paritySquares 2 0) (paritySquares 2 1)).mode = "HUNT"
    ∧ (p2m2Reset 2 0 (paritySquares 2 0) (paritySquares 2 1)).all_hits = ∅
    ∧ (p2m2Reset 2 0 (paritySquares 2 0) (paritySquares 2 1)).chosen_parity = 0
    ∧ paritySquares 2 0 = [((0 : Int), (0 : Int)), (1, 1)]
    ∧ paritySquares 2 1 = [((0 : Int), (1 : Int)), (1, 0)]
    ∧ (p2m2NextShot (p2m2Reset 2 0 (paritySquares 2 0) (paritySquares 2 1))
        (initView 2) [] (fun _ => (0, 0)) 5).map Prod.fst
        = some ((1 : Int), (0 : Int))
    ∧ ((1 : Int) + (0 : Int)) % 2 ≠
        (p2m2Reset 2 0 (paritySquares 2 0) (paritySquares 2 1)).chosen_parity := by
  decide

/-! ## C6 amended: who falls back and who raises -/

/-- C6 amended: the P2M2-family fallback behaves as the claim says — with
both candidate sources exhausted (empty hunt list, empty priority deque, no
new hit to refill it) `next_shot` does not raise but falls through to the
uniform rejection-sampling fallback, returning an unfired coordinate as
soon as the random stream offers one within the fuel bound.  RandomSearch
(and Hunt-and-Target, `c6_exhaustion_raises`) instead raise `ValueError`
at exhaustion. -/
theorem c6_amended_p2m2_uniform_fallback (st : P2M2State) (board : View)
    (hist : List Coord) (rng : Nat → Coord) (fuel : Nat) (bs : Nat)
    (hh : st.hunt_targets = []) (hp : st.priority_hits = [])
    (hnew : ∀ x ∈ hist, x ∈ st.all_hits)
    (hrng : ∃ j, j < fuel ∧ rng j ∉ st.fired_shots) :
    (∃ c st2, p2m2NextShot st board hist rng fuel = some (c, st2)
      ∧ c ∉ st.fired_shots)
    ∧ rsNextShot ⟨bs, []⟩ = .error .valueError := by
  constructor
  · obtain ⟨stX, hfx, heq⟩ :=
      p2m2NextShot_exhausted_eq st board hist rng fuel hh hp hnew
    rw [heq]
    have hs := p2m2Fallback_success stX rng fuel (by rw [hfx]; exact hrng)
    obtain ⟨c, st2, hres, hcnf⟩ := hs
    refine ⟨c, st2, hres, ?_⟩
    rw [← hfx]
    exact hcnf
  · rfl

/-- C6 amended, witness: fully exhausted 1×1 P2M2 state with an empty
fired set; the stream offers (0,0) at once. -/
theorem c6_amended_p2m2_uniform_fallback_witness :
    (∃ c st2, p2m2NextShot ⟨1, "HUNT", ∅, [], 0, [], ∅, none, false⟩
        [["UNKNOWN"]] [] (fun _ => (0, 0)) 1 = some (c, st2)
      ∧ c ∉ (⟨1, "HUNT", ∅, [], 0, [], ∅, none, false⟩ : P2M2State).fired_shots)
    ∧ rsNextShot ⟨1, []⟩ = .error .valueError :=
  c6_amended_p2m2_uniform_fallback
    ⟨1, "HUNT", ∅, [], 0, [], ∅, none, false⟩ [["UNKNOWN"]] [] (fun _ => (0, 0))
    1 1 rfl rfl (by intro x hx; simp at hx) ⟨0, by decide, by decide⟩

/-! ## C10: the rejection-sampling fallback and totality -/

theorem checkTransitions_empty (cfg : GConfig) (fuel : Nat) (st : GRuntime)
    (rnd : GRand) (lastRes : Option String) (hist : List Coord)
    (htr : (stateCfg cfg st.current_state).transitions = []) :
    checkTransitions cfg fuel st rnd lastRes hist = some (st, rnd) := by
  unfold checkTransitions
  rw [htr]
  rfl

theorem genericNextShot_no_actions_none (cfg : GConfig) (fuel : Nat)
    (st : GRuntime) (rnd : GRand) (view : View) (hist : List Coord)
    (hnew : ∀ x ∈ hist, x ∈ st.active_hits)
    (htr : (stateCfg cfg st.current_state).transitions = [])
    (hns : (stateCfg cfg st.current_state).next_shot = [])
    (hrl : rejectLoop st.fired_shots rnd.pairs rnd.pidx fuel = none) :
    genericNextShot cfg fuel st rnd view hist = none := by
  have hfil : hist.filter (fun x => decide (x ∉ st.active_hits)) = [] := by
    rw [List.filter_eq_nil_iff]
    intro a ha
    simpa using hnew a ha
  unfold genericNextShot
  dsimp only
  rw [hfil]
  have hcond : ¬(([] : List Coord) ≠ []) := by simp
  rw [if_neg hcond, if_neg hcond]
  rw [checkTransitions_empty cfg fuel st rnd (gDetermineLast st view) hist htr]
  dsimp only
  unfold genericShootPhase
  rw [hns]
  dsimp only [getShotFromActions]
  rw [hrl]

/-- C10: the final uniform-random fallback shared by the interpreter and
the P2M2 family is a rejection-sampling loop whose termination needs an
unfired cell: (1) if every board cell is already fired, no amount of fuel
makes the loop produce a result — it runs forever; (2) as soon as the
stream offers an unfired cell within the fuel bound the loop returns; (3)
and (4): under full-board saturation (and exhausted candidate sources so
that the fallback is reached) `next_shot` of P2M2 Enhanced and of the
interpreter returns no result for any fuel — it is total only under the
at-least-one-unfired-cell precondition. -/
theorem c10_fallback_terminates_iff_unfired_cell :
    (∀ (bs : Nat) (fired : Finset Coord) (rng : Nat → Coord) (fuel i : Nat),
      (∀ c ∈ allCells bs, c ∈ fired) → (∀ k, rng k ∈ allCells bs) →
      rejectLoop fired rng i fuel = none)
    ∧ (∀ (fired : Finset Coord) (rng : Nat → Coord) (fuel i : Nat),
      (∃ j, j < fuel ∧ rng (i + j) ∉ fired) →
      ∃ q, rejectLoop fired rng i fuel = some q)
    ∧ (∀ (st : P2M2State) (board : View) (hist : List Coord)
        (rng : Nat → Coord) (fuel : Nat),
      st.hunt_targets = [] → st.priority_hits = [] →
      (∀ x ∈ hist, x ∈ st.all_hits) →
      (∀ c ∈ allCells st.board_size, c ∈ st.fired_shots) →
      (∀ k, rng k ∈ allCells st.board_size) →
      p2m2NextShot st board hist rng fuel = none)
    ∧ (∀ (cfg : GConfig) (fuel : Nat) (st : GRuntime) (rnd : GRand)
        (view : View) (hist : List Coord),
      (∀ x ∈ hist, x ∈ st.active_hits) →
      (stateCfg cfg st.current_state).transitions = [] →
      (stateCfg cfg st.current_state).next_shot = [] →
      (∀ c ∈ allCells st.board_size, c ∈ st.fired_shots) →
      (∀ k, rnd.pairs k ∈ allCells st.board_size) →
      genericNextShot cfg fuel st rnd view hist = none) := by
  refine ⟨?_, ?_, ?_, ?_⟩
  · intro bs fired rng fuel i hall hrng
    exact rejectLoop_all_fired bs fired rng hall hrng fuel i
  · intro fired rng fuel i h
    exact rejectLoop_success fired rng fuel i h
  · intro st board hist rng fuel hh hp hnew hall hrng
    obtain ⟨stX, hfx, heq⟩ :=
      p2m2NextShot_exhausted_eq st board hist rng fuel hh hp hnew
    rw [heq]
    apply p2m2Fallback_none
    rw [hfx]
    exact rejectLoop_all_fired st.board_size st.fired_shots rng hall hrng fuel 0
  · intro cfg fuel st rnd view hist hnew htr hns hall hrng
    exact genericNextShot_no_actions_none cfg fuel st rnd view hist hnew htr hns
      (rejectLoop_all_fired st.board_size st.fired_shots rnd.pairs hall hrng
        fuel rnd.pidx)

/-- C10 witness: a saturated 1×1 board.  The loop yields nothing at fuel 3
with every cell fired; it succeeds at fuel 1 from an empty fired set; both
`next_shot` functions return no result on the saturated board. -/
theorem c10_fallback_terminates_iff_unfired_cell_witness :
    rejectLoop ({((0 : Int), (0 : Int))} : Finset Coord) (fun _ => (0, 0)) 0 3
      = none
    ∧ (∃ q, rejectLoop (∅ : Finset Coord) (fun _ => (0, 0)) 0 1 = some q)
    ∧ p2m2NextShot ⟨1, "HUNT", {((0 : Int), (0 : Int))}, [], 0, [], ∅, none, false⟩
        [["UNKNOWN"]] [] (fun _ => (0, 0)) 7 = none
    ∧ genericNextShot huntTargetDoc 7
        ⟨1, {((0 : Int), (0 : Int))}, ∅, none, [], [], "IDLE"⟩
        ⟨fun _ => (0, 0), 0, fun _ => [], 0⟩ [["UNKNOWN"]] [] = none := by
  refine ⟨?_, ?_, ?_, ?_⟩
  · exact c10_fallback_terminates_iff_unfired_cell.1 1 _ _ 3 0
      (by decide) (fun _ => by decide)
  · exact c10_fallback_terminates_iff_unfired_cell.2.1 _ _ 1 0
      ⟨0, by decide, by decide⟩
  · exact c10_fallback_terminates_iff_unfired_cell.2.2.1 _ _ _ _ 7
      rfl rfl (by intro x hx; simp at hx) (by decide) (fun _ => by decide)
  · exact c10_fallback_terminates_iff_unfired_cell.2.2.2 huntTargetDoc 7 _ _ _ _
      (by intro x hx; simp at hx) (by decide) (by decide)
      (by decide)
      (by intro k; show ((0 : Int), (0 : Int)) ∈ allCells 1; decide)

/-! ## C8: cluster union by Manhattan adjacency -/

theorem getD_mem {α : Type} (l : List α) (i : Nat) (d : α)
    (h : i < l.length) : l.getD i d ∈ l := by
  rw [List.getD_eq_getElem?_getD, List.getElem?_eq_getElem h]
  exact List.getElem_mem h

theorem adjIndices_mem_iff (groups : List (Finset Coord)) (hit : Coord)
    (i : Nat) :
    i ∈ adjIndices groups hit ↔
      i < groups.length ∧ groupAdjacent hit (groups.getD i ∅) = true := by
  unfold adjIndices
  rw [List.mem_filter, List.mem_range]

theorem adjIndices_nil (groups : List (Finset Coord)) (hit : Coord)
    (h : ∀ g ∈ groups, ¬ ∃ cell ∈ g, manhattanAdj hit cell = true) :
    adjIndices groups hit = [] := by
  unfold adjIndices
  rw [List.filter_eq_nil_iff]
  intro i hi
  rw [List.mem_range] at hi
  have hmem := getD_mem groups i ∅ hi
  have := h _ hmem
  simp [groupAdjacent]
  simpa using this

theorem removeIdx_eq_filter {α : Type} (d : α) (p : α → Bool) :
    ∀ (l : List α) (k : Nat) (idxs : List Nat),
      (∀ j, j < l.length → ((k + j) ∈ idxs ↔ p (l.getD j d) = true)) →
      removeIdx k l idxs = l.filter (fun x => !p x) := by
  intro l
  induction l with
  | nil => intro k idxs _; rfl
  | cons x xs ih =>
    intro k idxs hiff
    have h0 : k ∈ idxs ↔ p x = true := by
      have := hiff 0 (by simp)
      simpa using this
    have hshift : ∀ j, j < xs.length → ((k + 1 + j) ∈ idxs ↔ p (xs.getD j d) = true) := by
      intro j hj
      have := hiff (j + 1) (by simpa using Nat.succ_lt_succ hj)
      have harith : k + (j + 1) = k + 1 + j := by omega
      rw [harith] at this
      simpa using this
    rw [removeIdx]
    by_cases hk : k ∈ idxs
    · rw [if_pos hk]
      have hpx : p x = true := h0.mp hk
      rw [List.filter_cons]
      simp only [hpx, Bool.not_true, Bool.false_eq_true, if_false]
      exact ih (k + 1) idxs hshift
    · rw [if_neg hk]
      have hpx : ¬ p x = true := fun hp => hk (h0.mpr hp)
      rw [List.filter_cons]
      simp only [Bool.not_eq_true] at hpx
      simp only [hpx, Bool.not_false, if_true]
      rw [ih (k + 1) idxs hshift]

theorem foldl_union_left (f : Nat → Finset Coord) :
    ∀ (idxs : List Nat) (acc : Finset Coord),
      acc ⊆ idxs.foldl (fun a i => a ∪ f i) acc := by
  intro idxs
  induction idxs with
  | nil => intro acc; exact Finset.Subset.refl acc
  | cons i is ih =>
    intro acc
    rw [List.foldl_cons]
    exact Finset.Subset.trans Finset.subset_union_left (ih (acc ∪ f i))

theorem foldl_union_mem (f : Nat → Finset Coord) :
    ∀ (idxs : List Nat) (acc : Finset Coord) (i : Nat), i ∈ idxs →
      f i ⊆ idxs.foldl (fun a j => a ∪ f j) acc := by
  intro idxs
  induction idxs with
  | nil => intro acc i hi; simp at hi
  | cons j js ih =>
    intro acc i hi
    rw [List.foldl_cons]
    rcases List.mem_cons.mp hi with h1 | h2
    · rw [h1]
      exact Finset.Subset.trans Finset.subset_union_right
        (foldl_union_left f js (acc ∪ f j))
    · exact ih (acc ∪ f j) i h2

/-- C8: for one new hit, the cluster update merges the hit with an existing
cluster iff that cluster holds a cell at Manhattan distance exactly 1: with
no adjacent cluster the hit becomes a separate singleton cluster appended
at the end; otherwise EVERY adjacent cluster is merged with the hit into
one cluster (the non-adjacent ones surviving unchanged, in order).  A
diagonally adjacent pair of hits stays two separate clusters, while an
orthogonally adjacent pair merges. -/
theorem c8_cluster_merge_iff_adjacent (groups : List (Finset Coord))
    (hit : Coord) :
    ((∀ g ∈ groups, ¬ ∃ cell ∈ g, manhattanAdj hit cell = true) →
      addHitToGroups groups hit = groups ++ [{hit}])
    ∧ ((∃ g ∈ groups, ∃ cell ∈ g, manhattanAdj hit cell = true) →
      addHitToGroups groups hit
        = groups.filter (fun g => !groupAdjacent hit g)
          ++ [(adjIndices groups hit).foldl
                (fun acc i => acc ∪ groups.getD i ∅) {hit}]
      ∧ hit ∈ (adjIndices groups hit).foldl
          (fun acc i => acc ∪ groups.getD i ∅) {hit}
      ∧ ∀ g ∈ groups, (∃ cell ∈ g, manhattanAdj hit cell = true) →
          g ⊆ (adjIndices groups hit).foldl
            (fun acc i => acc ∪ groups.getD i ∅) {hit})
    ∧ updateTargetGroups [] [((0 : Int), (0 : Int)), (1, 1)]
        = [{((0 : Int), (0 : Int))}, {((1 : Int), (1 : Int))}]
    ∧ updateTargetGroups [] [((0 : Int), (0 : Int)), (0, 1)]
        = [{((0 : Int), (0 : Int)), ((0 : Int), (1 : Int))}] := by
  refine ⟨?_, ?_, by decide, by decide⟩
  · intro hno
    unfold addHitToGroups
    rw [adjIndices_nil groups hit hno]
    simp
  · intro hex
    have hne : adjIndices groups hit ≠ [] := by
      obtain ⟨g, hg, hadj⟩ := hex
      obtain ⟨i, hi, hgi⟩ := List.getElem_of_mem hg
      intro hemp
      have : i ∈ adjIndices groups hit := by
        rw [adjIndices_mem_iff]
        refine ⟨hi, ?_⟩
        have : groups.getD i ∅ = g := by
          rw [List.getD_eq_getElem?_getD, List.getElem?_eq_getElem hi]
          simpa using hgi
        rw [this]
        simp only [groupAdjacent, decide_eq_true_eq]
        exact hadj
      rw [hemp] at this
      simp at this
    have hrm : removeIdx 0 groups (adjIndices groups hit) =
        groups.filter (fun g => !groupAdjacent hit g) := by
      apply removeIdx_eq_filter ∅ (groupAdjacent hit) groups 0
      intro j hj
      rw [Nat.zero_add]
      rw [adjIndices_mem_iff]
      constructor
      · intro h; exact h.2
      · intro h; exact ⟨hj, h⟩
    refine ⟨?_, ?_, ?_⟩
    · unfold addHitToGroups
      rw [if_neg hne, hrm]
    · have := foldl_union_left (fun i => groups.getD i ∅)
        (adjIndices groups hit) {hit}
      exact this (Finset.mem_singleton_self hit)
    · intro g hg hadj
      obtain ⟨i, hi, hgi⟩ := List.getElem_of_mem hg
      have hgd : groups.getD i ∅ = g := by
        rw [List.getD_eq_getElem?_getD, List.getElem?_eq_getElem hi]
        simpa using hgi
      have hin : i ∈ adjIndices groups hit := by
        rw [adjIndices_mem_iff]
        refine ⟨hi, ?_⟩
        rw [hgd]
        simp only [groupAdjacent, decide_eq_true_eq]
        exact hadj
      have hsub := foldl_union_mem (fun i => groups.getD i ∅)
        (adjIndices groups hit) {hit} i hin
      simp only at hsub
      rw [hgd] at hsub
      exact hsub

/-- C8 witness: a diagonal hit stays separate; an orthogonal hit merges
with the existing cluster. -/
theorem c8_cluster_merge_iff_adjacent_witness :
    addHitToGroups [{((0 : Int), (0 : Int))}] (1, 1)
      = [{((0 : Int), (0 : Int))}] ++ [{((1 : Int), (1 : Int))}]
    ∧ addHitToGroups [{((0 : Int), (0 : Int))}] (0, 1)
      = ([{((0 : Int), (0 : Int))}] : List (Finset Coord)).filter
            (fun g => !groupAdjacent ((0 : Int), (1 : Int)) g)
          ++ [(adjIndices [{((0 : Int), (0 : Int))}] ((0 : Int), (1 : Int))).foldl
                (fun acc i => acc ∪ ([{((0 : Int), (0 : Int))}] :
                  List (Finset Coord)).getD i ∅) {((0 : Int), (1 : Int))}]
    ∧ ({((0 : Int), (0 : Int))} : Finset Coord) ⊆
        (adjIndices [{((0 : Int), (0 : Int))}] ((0 : Int), (1 : Int))).foldl
          (fun acc i => acc ∪ ([{((0 : Int), (0 : Int))}] :
            List (Finset Coord)).getD i ∅) {((0 : Int), (1 : Int))} := by
  refine ⟨?_, ?_, ?_⟩
  · exact (c8_cluster_merge_iff_adjacent [{((0 : Int), (0 : Int))}] (1, 1)).1
      (by decide)
  · exact ((c8_cluster_merge_iff_adjacent [{((0 : Int), (0 : Int))}] (0, 1)).2.1
      ⟨{((0 : Int), (0 : Int))}, by decide, by decide⟩).1
  · exact ((c8_cluster_merge_iff_adjacent [{((0 : Int), (0 : Int))}] (0, 1)).2.1
      ⟨{((0 : Int), (0 : Int))}, by decide, by decide⟩).2.2
      {((0 : Int), (0 : Int))} (by decide) (by decide)

/-! ## C7: one transition per call, HUNT → TARGET scenario -/

theorem alookup_aupdate {β : Type} (l : List (String × β)) (k : String)
    (f : β → β) : alookup (aupdate l k f) k = (alookup l k).map f := by
  induction l with
  | nil => rfl
  | cons p ps ih =>
    by_cases hp : (p.1 == k) = true
    · unfold aupdate
      rw [List.map_cons, if_pos hp]
      unfold alookup
      rw [@List.find?_cons_of_pos _ (fun q => q.1 == k) (p.1, f p.2) _ hp,
          @List.find?_cons_of_pos _ (fun q => q.1 == k) p _ hp]
      rfl
    · unfold aupdate
      rw [List.map_cons, if_neg hp]
      unfold alookup
      rw [List.find?_cons_of_neg _ (by simpa using hp),
          List.find?_cons_of_neg _ (by simpa using hp)]
      exact ih

/-- Effect of the TARGET `on_entry` block of `huntTargetDoc` on variables
and state name. -/
theorem targetOnEntry_spec (fuel : Nat) (lh : Option Coord) (st : GRuntime)
    (rnd : GRand) (st2 : GRuntime) (rnd2 : GRand)
    (h : execOnEntry fuel lh
        [⟨.incrementVariable "ships_found_count", none⟩,
         ⟨.addAdjacentToQueue "target_queue", none⟩] st rnd = some (st2, rnd2)) :
    st2.vars = aupdate st.vars "ships_found_count" (fun n => n + 1)
    ∧ st2.current_state = st.current_state := by
  cases lh with
  | none =>
    have heval : execOnEntry fuel none
        [⟨.incrementVariable "ships_found_count", none⟩,
         ⟨.addAdjacentToQueue "target_queue", none⟩] st rnd
        = some ({ st with
            vars := aupdate st.vars "ships_found_count" (fun n => n + 1) }, rnd) :=
      rfl
    rw [heval] at h
    simp only [Option.some.injEq, Prod.mk.injEq] at h
    rw [← h.1]
    exact ⟨rfl, rfl⟩
  | some lhc =>
    have heval : execOnEntry fuel (some lhc)
        [⟨.incrementVariable "ships_found_count", none⟩,
         ⟨.addAdjacentToQueue "target_queue", none⟩] st rnd
        = some (addValidShots { st with
            vars := aupdate st.vars "ships_found_count" (fun n => n + 1) }
            (gAdjOffsets lhc) "target_queue", rnd) :=
      rfl
    rw [heval] at h
    simp only [Option.some.injEq, Prod.mk.injEq] at h
    rw [← h.1]
    exact ⟨rfl, rfl⟩

/-- A single `pop_from_queue` next-shot block leaves variables and the
state name untouched. -/
theorem getShotPop_spec (fuel : Nat) (hist : List Coord) (q : String)
    (st : GRuntime) (rnd : GRand) (o : Option Coord) (st2 : GRuntime)
    (rnd2 : GRand)
    (h : getShotFromActions fuel hist [⟨.popFromQueue q, none⟩] st rnd
      = some (o, st2, rnd2)) :
    st2.vars = st.vars ∧ st2.current_state = st.current_state := by
  rw [getShotFromActions] at h
  split at h
  · rename_i hcond
    exact absurd hcond (by simp)
  · dsimp only [executeAction] at h
    cases hpop : popFirst (fun s => decide (s ∉ st.fired_shots))
        ((alookup st.queues q).getD []) with
    | none =>
      rw [hpop] at h
      dsimp only [getShotFromActions] at h
      simp only [Option.some.injEq, Prod.mk.injEq] at h
      rw [← h.2.1]
      exact ⟨rfl, rfl⟩
    | some p =>
      rw [hpop] at h
      dsimp only at h
      split at h
      · simp only [Option.some.injEq, Prod.mk.injEq] at h
        rw [← h.2.1]
        exact ⟨rfl, rfl⟩
      · dsimp only [getShotFromActions] at h
        simp only [Option.some.injEq, Prod.mk.injEq] at h
        rw [← h.2.1]
        exact ⟨rfl, rfl⟩

/-- When the current state's `next_shot` block is a single queue pop, the
whole shoot phase leaves the state name and the variables untouched. -/
theorem genericShootPhase_pop_preserves (cfg : GConfig) (fuel : Nat)
    (hist : List Coord) (q : String) (stT : GRuntime) (rndT : GRand)
    (r : Coord × GRuntime × GRand)
    (hns : (stateCfg cfg stT.current_state).next_shot
      = [⟨.popFromQueue q, none⟩])
    (hr : genericShootPhase cfg fuel hist stT rndT = some r) :
    r.2.1.current_state = stT.current_state ∧ r.2.1.vars = stT.vars := by
  unfold genericShootPhase at hr
  rw [hns] at hr
  split at hr
  · exact absurd hr (by simp)
  · rename_i oshot st3 rnd3 hgs
    have hps := getShotPop_spec fuel hist q stT rndT oshot st3 rnd3 hgs
    dsimp only at hr
    split at hr
    · exact absurd hr (by simp)
    · rename_i s4 st4 rnd4 hchosen
      have hkey := genericShootPhase_chosen_key st3 rnd3 fuel oshot s4 st4
        rnd4 hchosen
      have hr2 : (s4, ({ st4 with
          fired_shots := insert s4 st4.fired_shots
          last_shot_returned := some s4 } : GRuntime), rnd4) = r := by
        simpa using hr
      rw [← hr2]
      dsimp only
      rw [hkey.2]
      exact ⟨hps.2, hps.1⟩

/-- C7: (1) `_check_transitions` fires at most one transition — exactly
the FIRST one of the current state's list whose condition holds; when it
fires, `current_state` switches and the new state's `on_entry` actions run
with the most recent hit as context iff the turn resolved to HIT.  (2) On
`huntTargetDoc` (initial state HUNT, `on_hit → TARGET`, TARGET's entry
incrementing `ships_found_count`): from HUNT, the first call seeing a new
hit returns with `current_state = TARGET` and the counter incremented.
(3) From TARGET (where the `on_hit` transition does not exist, being
specific to HUNT) no transition re-fires: any later call — hits or not —
leaves the state TARGET and the counter unchanged. -/
theorem c7_first_transition_fires_once :
    (∀ (cfg : GConfig) (fuel : Nat) (st : GRuntime) (rnd : GRand)
        (lastRes : Option String) (hist : List Coord),
      ((stateCfg cfg st.current_state).transitions.find?
          (fun t => evalCond st lastRes t.1) = none →
        checkTransitions cfg fuel st rnd lastRes hist = some (st, rnd))
      ∧ ∀ t, (stateCfg cfg st.current_state).transitions.find?
          (fun t => evalCond st lastRes t.1) = some t →
        checkTransitions cfg fuel st rnd lastRes hist
          = execOnEntry fuel
              (if (lastRes == some "HIT" && !hist.isEmpty) = true
               then hist.getLast? else none)
              (stateCfg cfg t.2).on_entry
              { st with current_state := t.2 } rnd)
    ∧ (∀ (fuel n : Nat) (st : GRuntime) (rnd : GRand) (view : View)
        (hist : List Coord),
      st.current_state = "HUNT" →
      alookup st.vars "ships_found_count" = some n →
      (∃ x ∈ hist, x ∉ st.active_hits) →
      ∀ r ∈ genericNextShot huntTargetDoc fuel st rnd view hist,
        r.2.1.current_state = "TARGET"
        ∧ alookup r.2.1.vars "ships_found_count" = some (n + 1))
    ∧ (∀ (fuel n : Nat) (st : GRuntime) (rnd : GRand) (view : View)
        (hist : List Coord),
      st.current_state = "TARGET" →
      alookup st.vars "ships_found_count" = some n →
      ∀ r ∈ genericNextShot huntTargetDoc fuel st rnd view hist,
        r.2.1.current_state = "TARGET"
        ∧ alookup r.2.1.vars "ships_found_count" = some n) := by
  refine ⟨?_, ?_, ?_⟩
  · intro cfg fuel st rnd lastRes hist
    constructor
    · intro hfind
      unfold checkTransitions
      rw [hfind]
    · intro t hfind
      unfold checkTransitions
      rw [hfind]
  · intro fuel n st rnd view hist hcs hvar hnew r hr
    rw [Option.mem_def] at hr
    have hhist : hist ≠ [] := by
      obtain ⟨x, hx, _⟩ := hnew
      exact List.ne_nil_of_mem hx
    have hempty : hist.isEmpty = false := by
      cases hist with
      | nil => exact absurd rfl hhist
      | cons a l => rfl
    have hfne : hist.filter (fun y => decide (y ∉ st.active_hits)) ≠ [] := by
      obtain ⟨x, hx, hnx⟩ := hnew
      intro hemp
      have hmem : x ∈ hist.filter (fun y => decide (y ∉ st.active_hits)) :=
        List.mem_filter.mpr ⟨hx, by simpa using hnx⟩
      rw [hemp] at hmem
      simp at hmem
    unfold genericNextShot at hr
    dsimp only at hr
    rw [if_pos hfne, if_pos hfne] at hr
    generalize hG : ({ st with active_hits := st.active_hits ∪
        (hist.filter (fun y => decide (y ∉ st.active_hits))).toFinset }
        : GRuntime) = st1 at hr
    have hcs1 : st1.current_state = "HUNT" := by
      rw [← hG]
      exact hcs
    have hvars1 : st1.vars = st.vars := by rw [← hG]
    have hct : checkTransitions huntTargetDoc fuel st1 rnd (some "HIT") hist
        = execOnEntry fuel hist.getLast?
            [⟨.incrementVariable "ships_found_count", none⟩,
             ⟨.addAdjacentToQueue "target_queue", none⟩]
            { st1 with current_state := "TARGET" } rnd := by
      unfold checkTransitions
      rw [hcs1]
      have hfind : (stateCfg huntTargetDoc "HUNT").transitions.find?
          (fun t => evalCond st1 (some "HIT") t.1)
          = some (.onHit, "TARGET") := rfl
      rw [hfind]
      dsimp only
      have hcond : (some "HIT" == some "HIT" && !hist.isEmpty) = true := by
        rw [hempty]
        rfl
      rw [if_pos hcond]
      rfl
    rw [hct] at hr
    cases hoe : execOnEntry fuel hist.getLast?
        [⟨.incrementVariable "ships_found_count", none⟩,
         ⟨.addAdjacentToQueue "target_queue", none⟩]
        { st1 with current_state := "TARGET" } rnd with
    | none =>
      rw [hoe] at hr
      simp at hr
    | some pr =>
      obtain ⟨stT, rndT⟩ := pr
      rw [hoe] at hr
      dsimp only at hr
      have hoes := targetOnEntry_spec fuel hist.getLast? _ rnd stT rndT hoe
      have hTcs : stT.current_state = "TARGET" := hoes.2
      have hTvars : stT.vars
          = aupdate st1.vars "ships_found_count" (fun z => z + 1) := hoes.1
      have hns : (stateCfg huntTargetDoc stT.current_state).next_shot
          = [⟨.popFromQueue "target_queue", none⟩] := by
        rw [hTcs]
        rfl
      have hpp := genericShootPhase_pop_preserves huntTargetDoc fuel hist
        "target_queue" stT rndT r hns hr
      refine ⟨by rw [hpp.1, hTcs], ?_⟩
      rw [hpp.2, hTvars, hvars1, alookup_aupdate, hvar]
      rfl
  · intro fuel n st rnd view hist hcs hvar r hr
    rw [Option.mem_def] at hr
    unfold genericNextShot at hr
    dsimp only at hr
    by_cases hfe : hist.filter (fun y => decide (y ∉ st.active_hits)) ≠ []
    · rw [if_pos hfe, if_pos hfe] at hr
      generalize hG : ({ st with active_hits := st.active_hits ∪
          (hist.filter (fun y => decide (y ∉ st.active_hits))).toFinset }
          : GRuntime) = st1 at hr
      have hcs1 : st1.current_state = "TARGET" := by
        rw [← hG]
        exact hcs
      have hvars1 : st1.vars = st.vars := by rw [← hG]
      have hct := checkTransitions_empty huntTargetDoc fuel st1 rnd
        (some "HIT") hist (by rw [hcs1]; rfl)
      rw [hct] at hr
      dsimp only at hr
      have hns : (stateCfg huntTargetDoc st1.current_state).next_shot
          = [⟨.popFromQueue "target_queue", none⟩] := by
        rw [hcs1]
        rfl
      have hpp := genericShootPhase_pop_preserves huntTargetDoc fuel hist
        "target_queue" st1 rnd r hns hr
      refine ⟨by rw [hpp.1, hcs1], ?_⟩
      rw [hpp.2, hvars1]
      exact hvar
    · rw [if_neg hfe, if_neg hfe] at hr
      have hct := checkTransitions_empty huntTargetDoc fuel st rnd
        (gDetermineLast st view) hist (by rw [hcs]; rfl)
      rw [hct] at hr
      dsimp only at hr
      have hns : (stateCfg huntTargetDoc st.current_state).next_shot
          = [⟨.popFromQueue "target_queue", none⟩] := by
        rw [hcs]
        rfl
      have hpp := genericShootPhase_pop_preserves huntTargetDoc fuel hist
        "target_queue" st rnd r hns hr
      refine ⟨by rw [hpp.1, hcs], ?_⟩
      rw [hpp.2]
      exact hvar

theorem c7_first_transition_fires_once_witness :
    (checkTransitions huntTargetDoc 3 hgTargetState hgRnd none []
      = some (hgTargetState, hgRnd))
    ∧ (checkTransitions huntTargetDoc 3 hgHuntState hgRnd (some "HIT")
          [((1 : Int), (1 : Int))]
        = execOnEntry 3
            (if ((some "HIT" == some "HIT"
                  && !(List.isEmpty [((1 : Int), (1 : Int))])) = true)
             then [((1 : Int), (1 : Int))].getLast? else none)
            (stateCfg huntTargetDoc "TARGET").on_entry
            { hgHuntState with current_state := "TARGET" } hgRnd)
    ∧ (genericNextShot huntTargetDoc 3 hgHuntState hgRnd (initView 2)
        [((1 : Int), (1 : Int))]).isSome = true
    ∧ (genericNextShot huntTargetDoc 3 hgHuntState hgRnd (initView 2)
        [((1 : Int), (1 : Int))]).elim True (fun r =>
          r.2.1.current_state = "TARGET"
          ∧ alookup r.2.1.vars "ships_found_count" = some 1)
    ∧ (genericNextShot huntTargetDoc 3 hgTargetState hgRnd (initView 2)
        []).isSome = true
    ∧ (genericNextShot huntTargetDoc 3 hgTargetState hgRnd (initView 2)
        []).elim True (fun r =>
          r.2.1.current_state = "TARGET"
          ∧ alookup r.2.1.vars "ships_found_count" = some 5) := by
  refine ⟨?_, ?_, ?_, ?_, ?_, ?_⟩
  · exact (c7_first_transition_fires_once.1 huntTargetDoc 3 hgTargetState
      hgRnd none []).1 rfl
  · exact (c7_first_transition_fires_once.1 huntTargetDoc 3 hgHuntState
      hgRnd (some "HIT") [((1 : Int), (1 : Int))]).2 (.onHit, "TARGET") rfl
  · rfl
  · cases heval : genericNextShot huntTargetDoc 3 hgHuntState hgRnd
        (initView 2) [((1 : Int), (1 : Int))] with
    | none => exact trivial
    | some r =>
      exact c7_first_transition_fires_once.2.1 3 0 hgHuntState hgRnd
        (initView 2) [((1 : Int), (1 : Int))] rfl rfl
        ⟨((1 : Int), (1 : Int)), by decide, by decide⟩ r
        (Option.mem_def.mpr heval)
  · rfl
  · cases heval : genericNextShot huntTargetDoc 3 hgTargetState hgRnd
        (initView 2) [] with
    | none => exact trivial
    | some r =>
      exact c7_first_transition_fires_once.2.2 3 5 hgTargetState hgRnd
        (initView 2) [] rfl rfl r (Option.mem_def.mpr heval)

end BattleshipSim
